import Mathlib

/-!
Verification development for the per-workspace package builder ("pi").

The definitions below are shallow embeddings of the Rust sources:
  - src/services/cache/build.rs   (build-outcome content store)
  - src/services/downloader.rs    (fetcher)
  - src/services/unarchiver.rs    (extractor)
  - src/models/cave.rs            (workspace settings and variant merge)
  - src/models/version_entry.rs   (version records, release types)
  - src/starlark/api/version.rs   (recipe-facing version builder)
  - src/commands/cave/build.rs    (dependency scheduler and pipeline executor)
  - src/commands/cave/run.rs and src/services/sandbox.rs (sandbox environment)

File-system and network effects are made explicit (maps from paths to
contents, chunked network responses); hash functions of external crates
(sha1/sha2, DefaultHasher) are abstracted as parameters.  Rust HashMap /
BTreeMap values are embedded as association lists with pointwise
(lookup-based) semantics.  Rust string primitives used by the sources
(split(':'), replace, to_lowercase, Vec::dedup) are re-implemented over
character lists so that every definition evaluates by kernel reduction.
-/

namespace PI

/-! ## Association lists (embedding of HashMap / BTreeMap, pointwise semantics) -/

/-- Lookup of a key in an association list: the embedding of map lookup. -/
def alookup {α : Type} (l : List (String × α)) (k : String) : Option α :=
  match l with
  | [] => none
  | (k', v) :: rest => if k' = k then some v else alookup rest k

/-- Insert or replace a binding: the embedding of HashMap/BTreeMap insert. -/
def ainsert {α : Type} (l : List (String × α)) (k : String) (v : α) : List (String × α) :=
  match l with
  | [] => [(k, v)]
  | (k', v') :: rest => if k' = k then (k, v) :: rest else (k', v') :: ainsert rest k v

/-- Remove every binding of a key: the embedding of HashMap remove
(maps built by `ainsert` have at most one binding per key). -/
def aremove {α : Type} (l : List (String × α)) (k : String) : List (String × α) :=
  match l with
  | [] => []
  | (k', v) :: rest => if k' = k then aremove rest k else (k', v) :: aremove rest k

theorem alookup_ainsert {α : Type} (l : List (String × α)) (k k' : String) (v : α) :
    alookup (ainsert l k v) k' = if k = k' then some v else alookup l k' := by
  induction l with
  | nil => simp [ainsert, alookup]
  | cons p rest ih =>
    obtain ⟨pk, pv⟩ := p
    by_cases hpk : pk = k
    · subst hpk
      simp [ainsert, alookup]
      by_cases hkk : pk = k'
      · subst hkk; simp [alookup]
      · simp [alookup, hkk]
    · simp [ainsert, hpk, alookup]
      by_cases hpk' : pk = k'
      · subst hpk'
        have : ¬ k = pk := fun h => hpk h.symm
        simp [this, alookup]
      · simp [alookup, hpk', ih]

theorem alookup_aremove {α : Type} (l : List (String × α)) (k k' : String) :
    alookup (aremove l k) k' = if k' = k then none else alookup l k' := by
  induction l with
  | nil => simp [aremove, alookup]
  | cons p rest ih =>
    obtain ⟨pk, pv⟩ := p
    by_cases hpk : pk = k
    · subst hpk
      have hrm : aremove ((pk, pv) :: rest) pk = aremove rest pk := by simp [aremove]
      rw [hrm, ih]
      by_cases hkk : k' = pk
      · simp [hkk]
      · have hne : ¬ pk = k' := fun h => hkk h.symm
        simp [hkk, alookup, hne]
    · simp only [aremove, if_neg hpk]
      by_cases hpk' : pk = k'
      · subst hpk'
        have hne : ¬ pk = k := hpk
        simp [alookup, ih, fun h => hne (h : pk = k)]
      · simp [alookup, hpk', ih]

/-! ## Rust string primitives over character lists -/

/-- Prepend a character to the first segment of a split. -/
def consHead (c : Char) : List (List Char) → List (List Char)
  | [] => [[c]]
  | s :: ss => (c :: s) :: ss

/-- Split a character list at each colon, the embedding of Rust
str::split(':') (keeps empty segments). -/
def charSplit : List Char → List (List Char)
  | [] => [[]]
  | c :: rest =>
    if c = ':' then [] :: charSplit rest
    else consHead c (charSplit rest)

/-- Split a string at each colon, the embedding of Rust str::split(':'). -/
def splitColon (s : String) : List String := (charSplit s.data).map (fun l => String.mk l)

/-- Join strings with a colon separator, the embedding of Vec::join(":"). -/
def joinColon : List String → String
  | [] => ""
  | [a] => a
  | a :: rest => a ++ ":" ++ joinColon rest

/-- Fuelled replacement worker; the fuel is the length of the scanned list,
which bounds the number of scanning steps. -/
def charReplaceFuel (pat tgt : List Char) : Nat → List Char → List Char
  | _, [] => []
  | 0, l => l
  | fuel + 1, c :: rest =>
    if pat ≠ [] ∧ pat.isPrefixOf (c :: rest) then
      tgt ++ charReplaceFuel pat tgt fuel ((c :: rest).drop pat.length)
    else
      c :: charReplaceFuel pat tgt fuel rest

/-- Replace every non-overlapping occurrence of a pattern, left to right:
the embedding of Rust str::replace. -/
def rustReplace (s pat tgt : String) : String :=
  String.mk (charReplaceFuel pat.data tgt.data s.data.length s.data)

/-- Lower-case a string, the embedding of Rust str::to_lowercase on the
ASCII strings compared by the sources. -/
def rustToLower (s : String) : String := String.mk (s.data.map Char.toLower)

/-- Remove consecutive duplicate elements, the embedding of Rust Vec::dedup
(only adjacent repeats are collapsed). -/
def rustDedup : List String → List String
  | [] => []
  | [a] => [a]
  | a :: b :: rest => if a = b then rustDedup (b :: rest) else a :: rustDedup (b :: rest)

/-- Last component of a slash-separated string, the embedding of Rust
url.split('/').last() (a split is never empty). -/
def lastSlashComponent (s : String) : Option String :=
  (s.data.splitOn '/').getLast?.map (fun l => String.mk l)

end PI

namespace PI

/-! ## Build-outcome content store (src/services/cache/build.rs) -/

/-- Embedding of `StepResult`. -/
structure StepResult where
  name : Option String
  step_hash : String
  timestamp : String
  output_path : Option String
  status : String
deriving DecidableEq, Repr

/-- Embedding of `PackageBuildCache`: per-version positional arrays of step
outcomes (`versions: HashMap<String, Vec<StepResult>>`). -/
structure PackageBuildCache where
  versions : List (String × List StepResult)
deriving DecidableEq, Repr

/-- Embedding of `PackageBuildCache::default()`. -/
def PackageBuildCache.default : PackageBuildCache := ⟨[]⟩

/-- The on-disk store of `BuildCache`, one `PackageBuildCache` per package
name; `load` returns the default cache for a missing or corrupt file, so the
store is total. -/
def BuildStore : Type := String → PackageBuildCache

/-- Embedding of `BuildCache::get_step_result`: load the package file, index
the version's positional array, and demand fingerprint equality plus a
`"Success"` status. -/
def get_step_result (store : BuildStore) (pkgname version : String)
    (step_index : Nat) (step_hash : String) : Option StepResult :=
  let cache := store pkgname
  match alookup cache.versions version with
  | some steps =>
    match steps[step_index]? with
    | some result =>
      if result.step_hash = step_hash ∧ result.status = "Success" then some result else none
    | none => none
  | none => none

/-- The `Skipped` sentinel pushed by `update_step_result` to fill gaps. -/
def skippedSentinel : StepResult :=
  { name := none, step_hash := "unknown", timestamp := "", output_path := none,
    status := "Skipped" }

/-- Embedding of `BuildCache::update_step_result` on the loaded cache value:
set in place, append, or pad with `Skipped` sentinels then append. -/
def update_step_result (cache : PackageBuildCache) (version : String)
    (step_index : Nat) (result : StepResult) : PackageBuildCache :=
  let steps := (alookup cache.versions version).getD []
  let steps' :=
    if step_index < steps.length then steps.set step_index result
    else if step_index = steps.length then steps ++ [result]
    else (steps ++ List.replicate (step_index - steps.length) skippedSentinel) ++ [result]
  ⟨ainsert cache.versions version steps'⟩

/-- Store-level update: `update_step_result` loads, modifies and saves the
package's file. -/
def updateStore (store : BuildStore) (pkgname version : String)
    (step_index : Nat) (result : StepResult) : BuildStore :=
  fun p => if p = pkgname then update_step_result (store pkgname) version step_index result
           else store p

/-- C4: the content-store lookup returns an outcome exactly when a record
exists at that index for that package and version, its stored fingerprint
equals the queried one, and its status is Success; in every other case it
returns none. -/
theorem c4_content_store_lookup (store : BuildStore) (pkg ver : String)
    (idx : Nat) (fp : String) (r : StepResult) :
    get_step_result store pkg ver idx fp = some r ↔
      (∃ steps, alookup (store pkg).versions ver = some steps ∧
        steps[idx]? = some r ∧ r.step_hash = fp ∧ r.status = "Success") := by
  unfold get_step_result
  constructor
  · intro h
    cases hv : alookup (store pkg).versions ver with
    | none => simp [hv] at h
    | some steps =>
      cases hs : steps[idx]? with
      | none => simp [hv, hs] at h
      | some res =>
        simp only [hv, hs] at h
        by_cases hc : res.step_hash = fp ∧ res.status = "Success"
        · simp [hc] at h
          exact ⟨steps, rfl, by rw [hs, h], by rw [← h]; exact hc.1, by rw [← h]; exact hc.2⟩
        · simp [hc] at h
  · rintro ⟨steps, hv, hs, hh, hst⟩
    simp [hv, hs, hh, hst]

end PI

namespace PI

/-! ## Version records (src/models/version_entry.rs) -/

/-- Embedding of `ReleaseType`. -/
inductive ReleaseType where
  | stable
  | unstable
  | testing
  | lts
deriving DecidableEq, Repr

/-- Embedding of `impl FromStr for ReleaseType`: every branch, including the
fallback, returns Ok. -/
def ReleaseType.from_str (s : String) : Except String ReleaseType :=
  match rustToLower s with
  | "stable" => .ok .stable
  | "unstable" => .ok .unstable
  | "testing" => .ok .testing
  | "lts" => .ok .lts
  | _ => .ok .stable

/-- Embedding of `StructuredVersion`. -/
structure StructuredVersion where
  components : List Nat
  raw : String
deriving DecidableEq, Repr

/-- Embedding of the `Display` impl for `StructuredVersion` (prints the raw
string). -/
def StructuredVersion.toStr (v : StructuredVersion) : String := v.raw

/-- Embedding of `InstallStep`. -/
inductive InstallStep where
  | fetch (name : Option String) (url : String) (checksum : Option String)
      (filename : Option String)
  | extract (name : Option String) (format : Option String)
  | run (name : Option String) (command : String) (cwd : Option String)
deriving DecidableEq, Repr

/-- Embedding of `Export`. -/
inductive Export where
  | link (src : String) (dest : String)
  | env (key : String) (val : String)
  | path (rel : String)
deriving DecidableEq, Repr

/-- Embedding of `BuildFlag`. -/
structure BuildFlag where
  name : String
  help : String
  default_value : String
deriving DecidableEq, Repr

/-- Embedding of `Dependency`. -/
structure Dependency where
  name : String
  optional : Bool
deriving DecidableEq, Repr

/-- Embedding of `VersionEntry`. -/
structure VersionEntry where
  pkgname : String
  version : StructuredVersion
  release_date : String
  release_type : ReleaseType
  stream : String
  pipeline : List InstallStep
  exports : List Export
  flags : List BuildFlag
  build_dependencies : List Dependency
deriving DecidableEq, Repr

/-! ## Recipe-facing version builder (src/starlark/api/version.rs) -/

/-- Embedding of `VersionBuilder` (all fields verbatim strings). -/
structure VersionBuilder where
  pkgname : String
  version : String
  release_date : String
  release_type : String
  stream : String
  pipeline : List InstallStep
  exports : List Export
  flags : List BuildFlag
deriving DecidableEq, Repr

/-- Embedding of the `create_version` global: stores the supplied
release-type string verbatim (defaulting to "stable") and always succeeds. -/
def create_version (pkgname version : String) (release_date : Option String)
    (release_type : Option String) : Except String VersionBuilder :=
  .ok { pkgname := pkgname, version := version,
        release_date := release_date.getD "",
        release_type := release_type.getD "stable",
        stream := "", pipeline := [], exports := [], flags := [] }

/-- Modelled from the spec: the release-type validation of §4.5 ("accepted
literals stable|unstable|testing|lts, or a digit-dot pattern with optional
-suffix; anything else fails the call").  No such check exists in the
sources; this predicate only states what the spec accepts. -/
def specReleaseTypeValid (s : String) : Bool :=
  s = "stable" || s = "unstable" || s = "testing" || s = "lts" ||
    (match s.data.splitOn '-' with
     | core :: _ =>
       !core.isEmpty && core.all (fun c => c.isDigit || c = '.') &&
         (match core with
          | c :: _ => c.isDigit
          | [] => false)
     | [] => false)

/-! ## Workspace settings (src/models/cave.rs) -/

/-- Embedding of `CaveSettings` (option values kept as strings). -/
structure CaveSettings where
  packages : List String
  set : List (String × String)
  unset : List String
  options : List (String × List (String × String))
deriving DecidableEq, Repr

/-- Embedding of `CaveSettings::merge`: extend-then-dedup (Vec::dedup, i.e.
adjacent only) for packages, HashMap inserts for `set`, pushes plus `set`
removals for `unset` followed by Vec::dedup, and per-package entry-level
inserts for `options`. -/
def CaveSettings.merge (self other : CaveSettings) : CaveSettings :=
  let packages := rustDedup (self.packages ++ other.packages)
  let set1 := other.set.foldl (fun m kv => ainsert m kv.1 kv.2) self.set
  let us := other.unset.foldl
      (fun (p : List String × List (String × String)) u => (p.1 ++ [u], aremove p.2 u))
      (self.unset, set1)
  let options1 := other.options.foldl
      (fun m po =>
        let target0 := (alookup m po.1).getD []
        ainsert m po.1 (po.2.foldl (fun t kv => ainsert t kv.1 kv.2) target0))
      self.options
  { packages := packages, set := us.2, unset := rustDedup us.1, options := options1 }

/-- Embedding of `Cave`. -/
structure Cave where
  name : String
  workspace : String
  homedir : String
  settings : CaveSettings
  variants : List (String × CaveSettings)
deriving DecidableEq, Repr

/-- Embedding of `Cave::get_effective_settings`: strip a leading colon from
the variant name, look the variant up, and merge it into the defaults. -/
def Cave.get_effective_settings (cave : Cave) (variant_name : Option String) :
    Except String CaveSettings :=
  match variant_name with
  | none => .ok cave.settings
  | some v =>
    let v' := match v.data with
      | ':' :: rest => String.mk rest
      | _ => v
    match alookup cave.variants v' with
    | some vs => .ok (cave.settings.merge vs)
    | none => .error ("Variant '" ++ v' ++ "' not found in cave")

/-- Joint lookup in the two-level options map. -/
def optionLookup (opts : List (String × List (String × String))) (p k : String) :
    Option String :=
  (alookup opts p).bind (fun m => alookup m k)

end PI

namespace PI

/-! ## Pointwise characterization of the settings merge -/

/-- First-wins choice on options (the shape of HashMap insert overriding). -/
def orFirst {α : Type} (a b : Option α) : Option α :=
  match a with
  | some x => some x
  | none => b

theorem orFirst_some {α : Type} (x : α) (b : Option α) : orFirst (some x) b = some x := rfl

theorem orFirst_none {α : Type} (b : Option α) : orFirst none b = b := rfl

theorem alookup_eq_none {α : Type} (l : List (String × α)) (k : String)
    (h : k ∉ l.map Prod.fst) : alookup l k = none := by
  induction l with
  | nil => rfl
  | cons p rest ih =>
    obtain ⟨pk, pv⟩ := p
    simp only [List.map_cons, List.mem_cons, not_or] at h
    obtain ⟨h1, h2⟩ := h
    simp only [alookup, if_neg (fun hk : pk = k => h1 hk.symm)]
    exact ih h2

theorem alookup_ainsert_self {α : Type} (l : List (String × α)) (k : String) (v : α) :
    alookup (ainsert l k v) k = some v := by
  rw [alookup_ainsert]
  simp

theorem alookup_ainsert_ne {α : Type} (l : List (String × α)) (k k' : String) (v : α)
    (h : ¬ k = k') : alookup (ainsert l k v) k' = alookup l k' := by
  rw [alookup_ainsert]
  simp [h]

theorem alookup_foldl_ainsert {α : Type} (l : List (String × α)) (m : List (String × α))
    (k : String) (hnd : (l.map Prod.fst).Nodup) :
    alookup (l.foldl (fun m kv => ainsert m kv.1 kv.2) m) k =
      orFirst (alookup l k) (alookup m k) := by
  induction l generalizing m with
  | nil => simp [alookup, orFirst]
  | cons p rest ih =>
    obtain ⟨pk, pv⟩ := p
    simp only [List.map_cons, List.nodup_cons] at hnd
    simp only [List.foldl_cons]
    rw [ih _ hnd.2]
    by_cases hk : pk = k
    · subst hk
      have hnone : alookup rest pk = none := alookup_eq_none rest pk hnd.1
      simp [alookup, hnone, alookup_ainsert_self, orFirst]
    · simp [alookup, hk, alookup_ainsert_ne _ _ _ _ hk]

theorem alookup_foldl_aremove {α : Type} (us : List String) (m : List (String × α))
    (k : String) :
    alookup (us.foldl (fun m u => aremove m u) m) k =
      if k ∈ us then none else alookup m k := by
  induction us generalizing m with
  | nil => simp
  | cons u rest ih =>
    simp only [List.foldl_cons]
    rw [ih]
    by_cases hk : k ∈ rest
    · simp [hk]
    · by_cases hku : k = u
      · subst hku
        simp [hk, alookup_aremove]
      · simp [hk, hku, alookup_aremove]

theorem unset_pair_foldl (us : List String) (u0 : List String)
    (s0 : List (String × String)) :
    us.foldl (fun (p : List String × List (String × String)) u =>
        (p.1 ++ [u], aremove p.2 u)) (u0, s0) =
      (u0 ++ us, us.foldl (fun m u => aremove m u) s0) := by
  induction us generalizing u0 s0 with
  | nil => simp
  | cons u rest ih =>
    simp only [List.foldl_cons]
    rw [ih]
    simp

/-- One step of the options fold of `CaveSettings::merge`. -/
theorem optionLookup_fold_step (qk : String) (qopts : List (String × String))
    (dopts : List (String × List (String × String))) (p k : String)
    (hq : (qopts.map Prod.fst).Nodup) :
    optionLookup (ainsert dopts qk
        ((qopts).foldl (fun t kv => ainsert t kv.1 kv.2)
          ((alookup dopts qk).getD []))) p k =
      if qk = p then orFirst (alookup qopts k) (optionLookup dopts p k)
      else optionLookup dopts p k := by
  by_cases hqk : qk = p
  · subst hqk
    simp only [optionLookup, alookup_ainsert_self, Option.some_bind, if_pos rfl]
    rw [alookup_foldl_ainsert _ _ _ hq]
    cases halo : alookup qopts k with
    | some x => simp [orFirst]
    | none =>
      cases hd : alookup dopts qk with
      | some dm => simp [hd, Option.getD, orFirst]
      | none => simp [hd, Option.getD, alookup, orFirst]
  · simp only [optionLookup, alookup_ainsert_ne _ _ _ _ hqk, if_neg hqk]

/-- Pointwise value of the options fold of `CaveSettings::merge`. -/
theorem optionLookup_foldl (vopts dopts : List (String × List (String × String)))
    (p k : String) (hvo : (vopts.map Prod.fst).Nodup)
    (hoi : ∀ e ∈ vopts, ((e.2 : List (String × String)).map Prod.fst).Nodup) :
    optionLookup (vopts.foldl (fun m po =>
        ainsert m po.1 ((po.2).foldl (fun t kv => ainsert t kv.1 kv.2)
          ((alookup m po.1).getD []))) dopts) p k =
      orFirst (optionLookup vopts p k) (optionLookup dopts p k) := by
  induction vopts generalizing dopts with
  | nil => simp [optionLookup, alookup, orFirst]
  | cons q qrest ih =>
    obtain ⟨qk, qopts⟩ := q
    simp only [List.map_cons, List.nodup_cons] at hvo
    simp only [List.foldl_cons]
    rw [ih _ hvo.2 (fun e hmem => hoi e (List.mem_cons_of_mem _ hmem))]
    rw [optionLookup_fold_step qk qopts dopts p k
      (hoi (qk, qopts) (List.mem_cons_self _ _))]
    by_cases hqk : qk = p
    · subst hqk
      have hrest : alookup qrest qk = none := alookup_eq_none qrest qk hvo.1
      simp only [optionLookup, alookup, if_pos rfl, hrest, Option.none_bind,
        Option.some_bind]
      cases halo : alookup qopts k <;> simp [halo, orFirst]
    · have hne : ¬ qk = p := hqk
      simp only [optionLookup, alookup, if_neg hne, if_neg hqk, orFirst_none]

end PI

namespace PI

/-- C6 counterexample: merging variant packages `["a"]` into defaults
`["a", "b"]` yields `["a", "b", "a"]` — Vec::dedup removes only adjacent
duplicates, so the result is not a duplicate-free union as claimed. -/
theorem c6_packages_dedup_counterexample :
    (CaveSettings.merge ⟨["a", "b"], [], [], []⟩ ⟨["a"], [], [], []⟩).packages =
      ["a", "b", "a"] ∧
    ¬ List.Nodup (CaveSettings.merge ⟨["a", "b"], [], [], []⟩ ⟨["a"], [], [], []⟩).packages := by
  exact ⟨rfl, by decide⟩

/-- C6 (amended): the merged packages list is the concatenation of the
defaults' and the variant's lists with only adjacent duplicates collapsed;
`set` is last-writer-wins with every key of the variant's `unset` deleted;
`unset` is the concatenation with adjacent duplicates collapsed; options
merge at the (package, key) level with the variant overriding. -/
theorem c6_variant_merge_amended (d v : CaveSettings)
    (hvset : (v.set.map Prod.fst).Nodup)
    (hvo : (v.options.map Prod.fst).Nodup)
    (hoi : ∀ e ∈ v.options, ((e.2 : List (String × String)).map Prod.fst).Nodup) :
    (d.merge v).packages = rustDedup (d.packages ++ v.packages) ∧
    (d.merge v).unset = rustDedup (d.unset ++ v.unset) ∧
    (∀ k, alookup (d.merge v).set k =
      if k ∈ v.unset then none
      else orFirst (alookup v.set k) (alookup d.set k)) ∧
    (∀ p k, optionLookup (d.merge v).options p k =
      orFirst (optionLookup v.options p k) (optionLookup d.options p k)) := by
  refine ⟨rfl, ?_, ?_, ?_⟩
  · show rustDedup (v.unset.foldl
        (fun (p : List String × List (String × String)) u => (p.1 ++ [u], aremove p.2 u))
        (d.unset, _)).1 = _
    rw [unset_pair_foldl]
  · intro k
    show alookup (v.unset.foldl
        (fun (p : List String × List (String × String)) u => (p.1 ++ [u], aremove p.2 u))
        (d.unset, v.set.foldl (fun m kv => ainsert m kv.1 kv.2) d.set)).2 k = _
    rw [unset_pair_foldl]
    simp only
    rw [alookup_foldl_aremove]
    by_cases hk : k ∈ v.unset
    · simp [hk]
    · simp only [if_neg hk]
      rw [alookup_foldl_ainsert v.set d.set k hvset]
  · intro p k
    exact optionLookup_foldl v.options d.options p k hvo hoi

/-- Concrete defaults for the C6 witness. -/
def c6ExampleDefaults : CaveSettings :=
  ⟨["a", "b"], [("x", "1"), ("w", "3")], ["z"], [("p", [("o", "1")])]⟩

/-- Concrete variant for the C6 witness. -/
def c6ExampleVariant : CaveSettings :=
  ⟨["a"], [("y", "2")], ["x"], [("p", [("o", "2")])]⟩

/-- Witness for the amended C6 theorem at concrete settings. -/
theorem c6_variant_merge_amended_witness :
    (c6ExampleDefaults.merge c6ExampleVariant).packages =
      rustDedup (c6ExampleDefaults.packages ++ c6ExampleVariant.packages) ∧
    alookup (c6ExampleDefaults.merge c6ExampleVariant).set "x" = none ∧
    optionLookup (c6ExampleDefaults.merge c6ExampleVariant).options "p" "o" = some "2" := by
  have h := c6_variant_merge_amended c6ExampleDefaults c6ExampleVariant
    (by decide) (by decide) (by decide)
  refine ⟨h.1, ?_, ?_⟩
  · have hx := h.2.2.1 "x"
    rw [if_pos (by decide)] at hx
    exact hx
  · have ho := h.2.2.2 "p" "o"
    rw [ho]
    rfl

/-- C9 counterexample: a string that is neither an accepted literal nor a
digit-dot pattern is still accepted — `create_version` stores it verbatim
and succeeds, and `ReleaseType::from_str` returns Ok(Stable) instead of an
error. -/
theorem c9_release_type_counterexample :
    specReleaseTypeValid "definitely-not-a-type" = false ∧
    create_version "pkg" "1.0" none (some "definitely-not-a-type") =
      .ok ⟨"pkg", "1.0", "", "definitely-not-a-type", "", [], [], []⟩ ∧
    ReleaseType.from_str "definitely-not-a-type" = .ok .stable := by
  exact ⟨by decide, rfl, rfl⟩

/-- C9 (amended): every release-type string is accepted — `create_version`
never fails and stores the supplied string verbatim, and
`ReleaseType::from_str` succeeds on every input (unrecognized strings
become Stable). -/
theorem c9_release_type_accepts_everything (s pkg ver : String) (d : Option String) :
    create_version pkg ver d (some s) =
      .ok { pkgname := pkg, version := ver, release_date := d.getD "",
            release_type := s, stream := "", pipeline := [], exports := [],
            flags := [] } ∧
    ∃ rt, ReleaseType.from_str s = .ok rt := by
  refine ⟨rfl, ?_⟩
  unfold ReleaseType.from_str
  split <;> exact ⟨_, rfl⟩

end PI

namespace PI

/-! ## Fetcher (src/services/downloader.rs) -/

/-- File system as a map from path to byte content. -/
def FileSys : Type := String → Option (List Nat)

/-- Write a file in place (File::create truncates and writes). -/
def setFile (fs : FileSys) (p : String) (content : List Nat) : FileSys :=
  fun q => if q = p then some content else fs q

theorem setFile_self (fs : FileSys) (p : String) (c : List Nat) :
    setFile fs p c p = some c := by simp [setFile]

/-- The three digest functions dispatched by length (sha1/sha2 crates,
abstracted). -/
structure HashFns where
  sha1 : List Nat → String
  sha256 : List Nat → String
  sha512 : List Nat → String

/-- Embedding of `Downloader::calculate_checksum`: open the file, dispatch
on the expected digest length (40 → SHA-1, 64 → SHA-256, 128 → SHA-512),
any other length is an unsupported-checksum error. -/
def calculate_checksum (h : HashFns) (fs : FileSys) (path : String)
    (expected_len : Nat) : Except String String :=
  match fs path with
  | none => .error "open failed"
  | some content =>
    if expected_len = 40 then .ok (h.sha1 content)
    else if expected_len = 64 then .ok (h.sha256 content)
    else if expected_len = 128 then .ok (h.sha512 content)
    else .error "Unsupported checksum length"

/-- One network response: whether the initial call succeeds, the chunks
delivered by the body reader, and whether a read error occurs after them. -/
structure NetResponse where
  callOk : Bool
  chunks : List (List Nat)
  readFail : Bool

/-- Embedding of the pre-download skip check of
`Downloader::download_to_file`: if the destination exists and a checksum is
declared, recompute and compare; a checksum-computation error falls through
to the download. -/
def download_skip_check (h : HashFns) (fs : FileSys) (dest : String)
    (cs : Option String) : Bool :=
  match cs with
  | some expected =>
    (fs dest).isSome &&
      (match calculate_checksum h fs dest expected.length with
       | .ok actual => actual == expected
       | .error _ => false)
  | none => false

/-- Embedding of `Downloader::download_to_file`: the body is streamed
directly into `dest` (File::create on the destination itself, no temporary
file); the declared digest is verified after the write completes. -/
def download_to_file (h : HashFns) (net : String → NetResponse) (fs : FileSys)
    (url dest : String) (expected_checksum : Option String) :
    Except String Unit × FileSys :=
  if download_skip_check h fs dest expected_checksum then (.ok (), fs)
  else
    let resp := net url
    if resp.callOk then
      if resp.readFail then
        (.error ("FetchFailed: " ++ url), setFile fs dest resp.chunks.flatten)
      else
        let fs2 := setFile fs dest resp.chunks.flatten
        match expected_checksum with
        | some expected =>
          match calculate_checksum h fs2 dest expected.length with
          | .ok actual =>
            if actual == expected then (.ok (), fs2)
            else (.error ("checksum mismatch: got " ++ actual ++ ", want " ++ expected), fs2)
          | .error e => (.error e, fs2)
        | none => (.ok (), fs2)
    else (.error ("FetchFailed: " ++ url), fs)

/-- C2 counterexample: a mid-stream network failure leaves `dest` holding
the partial bytes streamed so far — the destination is not unchanged on
error, and no temporary file shields it. -/
theorem c2_partial_write_counterexample :
    (∃ e, (download_to_file ⟨fun _ => "a", fun _ => "b", fun _ => "c"⟩
        (fun _ => ⟨true, [[1, 2]], true⟩) (fun _ => none) "http://m/f" "/dl/f" none).1 =
      .error e) ∧
    (download_to_file ⟨fun _ => "a", fun _ => "b", fun _ => "c"⟩
        (fun _ => ⟨true, [[1, 2]], true⟩) (fun _ => none) "http://m/f" "/dl/f" none).2 "/dl/f" =
      some [1, 2] ∧
    (fun (_ : String) => (none : Option (List Nat))) "/dl/f" = none := by
  exact ⟨⟨_, rfl⟩, rfl, rfl⟩

/-- C2 (amended): the fetcher writes in place; when a call errors, the
destination either still holds its pre-call content (skip path impossible on
error, or the initial network call failed before any write) or holds exactly
the bytes streamed from the response body (mid-stream failure or digest
mismatch). -/
theorem c2_download_error_leaves_direct_write (h : HashFns)
    (net : String → NetResponse) (fs : FileSys) (url dest : String)
    (cs : Option String) (e : String)
    (herr : (download_to_file h net fs url dest cs).1 = .error e) :
    (download_to_file h net fs url dest cs).2 dest = fs dest ∨
    (download_to_file h net fs url dest cs).2 dest = some (net url).chunks.flatten := by
  unfold download_to_file
  by_cases hskip : download_skip_check h fs dest cs
  · simp [hskip]
  · simp only [hskip, if_neg, Bool.false_eq_true, not_false_iff, ite_false]
    cases hcall : (net url).callOk with
    | false => simp [hcall]
    | true =>
      cases hread : (net url).readFail with
      | true => simp [hcall, hread, setFile_self]
      | false =>
        cases cs with
        | none => simp [hcall, hread, setFile_self]
        | some expected =>
          simp only [hcall, hread]
          cases hcc : calculate_checksum h (setFile fs dest (net url).chunks.flatten)
              dest expected.length with
          | ok actual =>
            by_cases hmatch : actual == expected
            · simp [hmatch, hcc, setFile_self]
            · simp [hmatch, hcc, setFile_self]
          | error ce => simp [hcc, setFile_self]

/-- Witness for the amended C2 theorem at the concrete mid-stream failure. -/
theorem c2_download_error_leaves_direct_write_witness :
    (download_to_file ⟨fun _ => "a", fun _ => "b", fun _ => "c"⟩
        (fun _ => ⟨true, [[7]], true⟩) (fun _ => none) "http://m/g" "/dl/g" none).2 "/dl/g" =
      (fun (_ : String) => (none : Option (List Nat))) "/dl/g" ∨
    (download_to_file ⟨fun _ => "a", fun _ => "b", fun _ => "c"⟩
        (fun _ => ⟨true, [[7]], true⟩) (fun _ => none) "http://m/g" "/dl/g" none).2 "/dl/g" =
      some ((fun (_ : String) => NetResponse.mk true [[7]] true) "http://m/g").chunks.flatten :=
  c2_download_error_leaves_direct_write ⟨fun _ => "a", fun _ => "b", fun _ => "c"⟩
    (fun _ => ⟨true, [[7]], true⟩) (fun _ => none) "http://m/g" "/dl/g" none
    ("FetchFailed: " ++ "http://m/g") rfl

end PI

namespace PI

/-! ## Fetch step of the pipeline executor (src/commands/cave/build.rs) -/

/-- Outcome of the Fetch arm of `execute_step`: either the existing file is
adopted without network I/O, or a download is performed to the computed
destination. -/
inductive FetchAction where
  | skipExisting (dest : String)
  | downloaded (dest : String)
deriving DecidableEq, Repr

/-- Embedding of the `InstallStep::Fetch` arm of `execute_step`: compute the
destination from the filename (or the last URL component), and if it exists
return it — both the with-checksum branch (marked `TODO: verify checksum` in
the source) and the without-checksum branch skip on mere existence. -/
def execute_fetch_step (download_dir : String) (fileIsThere : String → Bool)
    (url : String) (checksum : Option String) (filename : Option String) : FetchAction :=
  let fname := filename.getD ((lastSlashComponent url).getD "download")
  let dest := download_dir ++ "/" ++ fname
  if fileIsThere dest then
    match checksum with
    | some _ => .skipExisting dest
    | none => .skipExisting dest
  else .downloaded dest

/-- C3: the Fetch arm of `execute_step` adopts an existing destination
without recomputing any digest — its result does not depend on the declared
checksum at all, so a stale file with a mismatching digest is adopted
(failing input: `/dl/f.tgz` exists, declared digest
"aaaaaaaaaaaaaaaaaaaaaaaaaaaaaaaaaaaaaaaa"). -/
theorem c3_fetch_step_ignores_digest :
    execute_fetch_step "/dl" (fun p => p == "/dl/f.tgz") "http://mirror/f.tgz"
        (some "aaaaaaaaaaaaaaaaaaaaaaaaaaaaaaaaaaaaaaaa") none = .skipExisting "/dl/f.tgz" ∧
    (∀ (dir : String) (ex : String → Bool) (url : String) (cs cs' : Option String)
        (fn : Option String),
      execute_fetch_step dir ex url cs fn = execute_fetch_step dir ex url cs' fn) := by
  refine ⟨rfl, ?_⟩
  intro dir ex url cs cs' fn
  unfold execute_fetch_step
  cases cs <;> cases cs' <;> rfl

/-! ## Extractor (src/services/unarchiver.rs) -/

/-- Suffix test over character lists, the embedding of str::ends_with. -/
def rustEndsWith (s suffix : String) : Bool := suffix.data.isSuffixOf s.data

/-- File-system view of the extractor: which directories exist, and which
destination directories actually hold the complete archive contents. -/
structure ExtractFS where
  dirThere : String → Bool
  complete : String → Bool

/-- Embedding of `Unarchiver::unarchive`: if the destination directory
exists the call succeeds immediately ("assume it's already unarchived
correctly" — no completion marker); otherwise the directory is created,
then the archive is unpacked by suffix dispatch (`unpackOk` abstracts the
tar/zip library calls; a failed unpack raises after the directory was
created). -/
def unarchive (fs : ExtractFS) (unpackOk : Bool) (src dest : String) :
    Except String Unit × ExtractFS :=
  if fs.dirThere dest then (.ok (), fs)
  else
    let fs1 : ExtractFS :=
      ⟨fun q => if q = dest then true else fs.dirThere q, fs.complete⟩
    let filename := (lastSlashComponent src).getD ""
    let unpacked : ExtractFS :=
      ⟨fs1.dirThere, fun q => if q = dest then true else fs.complete q⟩
    if rustEndsWith filename ".tar.gz" || rustEndsWith filename ".tgz" then
      if unpackOk then (.ok (), unpacked) else (.error "Failed to unpack tar.gz", fs1)
    else if rustEndsWith filename ".tar.xz" then
      if unpackOk then (.ok (), unpacked) else (.error "Failed to unpack tar.xz", fs1)
    else if rustEndsWith filename ".zip" then
      if unpackOk then (.ok (), unpacked) else (.error "Failed to extract zip archive", fs1)
    else (.error ("Unsupported archive format: " ++ filename), fs1)

/-- C7: there is no completion marker — a failed extraction leaves the
destination directory existing but incomplete, and the next call with the
same destination is a no-op that reports success instead of re-extracting
(failing input: extract `/dl/a.tar.gz` into `/pk/a`, unpack raises, then
extract again). -/
theorem c7_partial_extraction_adopted :
    (unarchive ⟨fun _ => false, fun _ => false⟩ false "/dl/a.tar.gz" "/pk/a").1 =
      .error "Failed to unpack tar.gz" ∧
    (unarchive ⟨fun _ => false, fun _ => false⟩ false "/dl/a.tar.gz" "/pk/a").2.dirThere "/pk/a" =
      true ∧
    (unarchive ⟨fun _ => false, fun _ => false⟩ false "/dl/a.tar.gz" "/pk/a").2.complete "/pk/a" =
      false ∧
    unarchive (unarchive ⟨fun _ => false, fun _ => false⟩ false "/dl/a.tar.gz" "/pk/a").2
        true "/dl/a.tar.gz" "/pk/a" =
      (.ok (), (unarchive ⟨fun _ => false, fun _ => false⟩ false "/dl/a.tar.gz" "/pk/a").2) := by
  exact ⟨rfl, rfl, rfl, rfl⟩

end PI


namespace PI

/-! ## Pipeline executor (src/commands/cave/build.rs, execute_pipeline) -/

/-- The configuration flags consulted by the executor. -/
structure ExecCfg where
  force : Bool
  rebuild : Bool
  packages_dir : String

/-- Modelled from the spec: `Config::resolve_packages_dir` is absent from
this snapshot (only its callers are present); per §4.4/§4.10 the placeholder
`@PACKAGES_DIR` is substituted with the content-store packages root. -/
def resolve_packages_dir (packages_dir : String) (s : String) : String :=
  rustReplace s "@PACKAGES_DIR" packages_dir

/-- The per-step substitution done by `execute_pipeline`: only a Run
command is rewritten. -/
def resolveStep (cfg : ExecCfg) (step : InstallStep) : InstallStep :=
  match step with
  | .run n c w => .run n (resolve_packages_dir cfg.packages_dir c) w
  | s => s

/-- Step-name extraction of `update_step_cache`. -/
def stepName : InstallStep → Option String
  | .fetch n _ _ _ => n
  | .extract n _ => n
  | .run n _ _ => n

/-- The Success record written by `update_step_cache`. -/
def mkStepResult (step : InstallStep) (hash now path : String) : StepResult :=
  { name := stepName step, step_hash := hash, timestamp := now,
    output_path := some path, status := "Success" }

/-- The `skip_cache` flag of the executor: Fetch never skips the cache
consult; other kinds skip under `rebuild`. -/
def skipCacheFlag (cfg : ExecCfg) : InstallStep → Bool
  | .fetch _ _ _ _ => false
  | _ => cfg.rebuild

/-- Whether a pipeline step was adopted from the content store or executed. -/
inductive StepMode where
  | adopted
  | executed
deriving DecidableEq, Repr

/-- Result of running a pipeline: the per-step adopt/execute trace, the
final current path (or the error that aborted the loop), and the updated
store. -/
structure PipelineRun where
  trace : List StepMode
  result : Except String (Option String)
  store : BuildStore

/-- Embedding of the step loop of `execute_pipeline`: per step, substitute
`@PACKAGES_DIR`, fingerprint, and consult the content store only when
`force` is off, nothing earlier recomputed, and the step kind does not skip
the cache; on a hit adopt the cached output path, otherwise execute the
step (`execStep` abstracts `execute_step`), record a Success outcome, and
mark the package recomputed. -/
def execute_pipeline_steps (cfg : ExecCfg) (hashFn : InstallStep → String)
    (execStep : Nat → InstallStep → Option String → Except String String)
    (now pkgname version : String) :
    List InstallStep → Nat → BuildStore → Option String → Bool → PipelineRun
  | [], _, store, cur, _ => ⟨[], .ok cur, store⟩
  | step :: rest, i, store, cur, recomputed =>
    let resolved_step := resolveStep cfg step
    let step_hash := hashFn resolved_step
    let cacheHit :=
      if !cfg.force && !recomputed && !skipCacheFlag cfg step then
        get_step_result store pkgname version i step_hash
      else none
    match cacheHit with
    | some cached =>
      let r := execute_pipeline_steps cfg hashFn execStep now pkgname version rest
        (i + 1) store cached.output_path recomputed
      ⟨.adopted :: r.trace, r.result, r.store⟩
    | none =>
      match execStep i resolved_step cur with
      | .error e => ⟨[.executed], .error e, store⟩
      | .ok result_path =>
        let store' := updateStore store pkgname version i
          (mkStepResult resolved_step step_hash now result_path)
        let r := execute_pipeline_steps cfg hashFn execStep now pkgname version rest
          (i + 1) store' (some result_path) true
        ⟨.executed :: r.trace, r.result, r.store⟩

/-- Entry point of the loop for one version record. -/
def execute_pipeline_trace (cfg : ExecCfg) (hashFn : InstallStep → String)
    (execStep : Nat → InstallStep → Option String → Except String String)
    (now : String) (version : VersionEntry) (store : BuildStore) : PipelineRun :=
  execute_pipeline_steps cfg hashFn execStep now version.pkgname version.version.toStr
    version.pipeline 0 store none false

theorem execute_pipeline_steps_recomputed_all_executed (cfg : ExecCfg)
    (hashFn : InstallStep → String)
    (execStep : Nat → InstallStep → Option String → Except String String)
    (now pkgname version : String) :
    ∀ (steps : List InstallStep) (i : Nat) (store : BuildStore) (cur : Option String)
      (m : StepMode),
      m ∈ (execute_pipeline_steps cfg hashFn execStep now pkgname version steps i store
        cur true).trace → m = .executed := by
  intro steps
  induction steps with
  | nil =>
    intro i store cur m hm
    simp [execute_pipeline_steps] at hm
  | cons step rest ih =>
    intro i store cur m hm
    simp only [execute_pipeline_steps, Bool.not_true, Bool.and_false, Bool.false_and,
      Bool.and_self, Bool.false_eq_true, if_false, ite_false] at hm
    rcases hstep : execStep i (resolveStep cfg step) cur with e | result_path <;>
      rw [hstep] at hm
    · simp at hm
      exact hm
    · simp only [List.mem_cons] at hm
      rcases hm with hm | hm
      · exact hm
      · exact ih _ _ _ m hm

theorem execute_pipeline_steps_cascade (cfg : ExecCfg) (hashFn : InstallStep → String)
    (execStep : Nat → InstallStep → Option String → Except String String)
    (now pkgname version : String) :
    ∀ (steps : List InstallStep) (i : Nat) (store : BuildStore) (cur : Option String)
      (recomputed : Bool) (a b : Nat), a < b →
      (execute_pipeline_steps cfg hashFn execStep now pkgname version steps i store
        cur recomputed).trace[a]? = some .executed →
      ∀ m, (execute_pipeline_steps cfg hashFn execStep now pkgname version steps i store
        cur recomputed).trace[b]? = some m → m = .executed := by
  intro steps
  induction steps with
  | nil =>
    intro i store cur recomputed a b hab ha m hb
    simp [execute_pipeline_steps] at ha
  | cons step rest ih =>
    intro i store cur recomputed a b hab ha m hb
    rw [execute_pipeline_steps] at ha hb
    rcases hhit : (if !cfg.force && !recomputed && !skipCacheFlag cfg step then
        get_step_result store pkgname version i (hashFn (resolveStep cfg step))
      else none) with _ | cached <;>
      simp only [hhit] at ha hb
    · rcases hstep : execStep i (resolveStep cfg step) cur with e | result_path <;>
        rw [hstep] at ha hb
      · match b, hb with
        | b' + 1, hb => simp at hb
      · match a, b, hab, ha, hb with
        | 0, b' + 1, hab, ha, hb =>
          simp only [List.getElem?_cons_succ] at hb
          exact execute_pipeline_steps_recomputed_all_executed cfg hashFn execStep now
            pkgname version rest (i + 1) _ _ m (List.getElem?_mem hb)
        | a' + 1, b' + 1, hab, ha, hb =>
          simp only [List.getElem?_cons_succ] at ha hb
          exact ih (i + 1) _ _ true a' b' (by omega) ha m hb
    · match a, b, hab, ha, hb with
      | 0, b' + 1, hab, ha, hb => simp at ha
      | a' + 1, b' + 1, hab, ha, hb =>
        simp only [List.getElem?_cons_succ] at ha hb
        exact ih (i + 1) _ _ recomputed a' b' (by omega) ha m hb

/-- C5: within one pipeline invocation, once the step at index `a` executed
(was not adopted from the content store), every later step that the
invocation reaches is executed as well, whatever the content store holds. -/
theorem c5_cache_miss_cascade (cfg : ExecCfg) (hashFn : InstallStep → String)
    (execStep : Nat → InstallStep → Option String → Except String String)
    (now : String) (version : VersionEntry) (store : BuildStore) (a b : Nat)
    (hab : a < b)
    (ha : (execute_pipeline_trace cfg hashFn execStep now version store).trace[a]? =
      some .executed)
    (m : StepMode)
    (hb : (execute_pipeline_trace cfg hashFn execStep now version store).trace[b]? =
      some m) :
    m = .executed :=
  execute_pipeline_steps_cascade cfg hashFn execStep now version.pkgname
    version.version.toStr version.pipeline 0 store none false a b hab ha m hb

/-- Concrete version record for the C5 witness: two Run steps. -/
def c5ExampleVersion : VersionEntry :=
  { pkgname := "p", version := ⟨[1], "1"⟩, release_date := "", release_type := .stable,
    stream := "", pipeline := [.run none "make a" none, .run none "make b" none],
    exports := [], flags := [], build_dependencies := [] }

/-- Witness for C5: with an empty store both steps execute, and the theorem
applies at indices 0 < 1. -/
theorem c5_cache_miss_cascade_witness :
    (0 : Nat) < 1 ∧
    (execute_pipeline_trace ⟨false, false, "/pk"⟩ (fun _ => "h") (fun _ _ _ => .ok "/out")
        "t" c5ExampleVersion (fun _ => ⟨[]⟩)).trace[0]? = some .executed ∧
    StepMode.executed = .executed :=
  ⟨by decide, rfl,
    c5_cache_miss_cascade ⟨false, false, "/pk"⟩ (fun _ => "h") (fun _ _ _ => .ok "/out")
      "t" c5ExampleVersion (fun _ => ⟨[]⟩) 0 1 (by decide) rfl .executed rfl⟩

end PI

namespace PI

/-! ## Sandbox environment (src/services/sandbox.rs, src/commands/cave/run.rs) -/

/-- Colon-split with empty segments dropped: the `split(':').filter(!is_empty)`
chain of `Bubblewrap::add_env_first`. -/
def pathParts (s : String) : List String :=
  (splitColon s).filter (fun x => !x.data.isEmpty)

/-- Embedding of `Bubblewrap::add_env_first`: split the current value at
colons, drop empty segments, prepend the entry unless already present,
re-join. -/
def add_env_first (env : List (String × String)) (name entry : String) :
    List (String × String) :=
  let val := (alookup env name).getD ""
  let parts := pathParts val
  let parts' := if parts.contains entry then parts else entry :: parts
  ainsert env name (joinColon parts')

/-- Embedding of the `resolve` closure of `apply_custom_envs`: substitute
`$/`, then `$`, then `@HOME`. -/
def resolveEnvVal (internal_pilocal host_home v : String) : String :=
  rustReplace (rustReplace (rustReplace v "$/" (internal_pilocal ++ "/"))
    "$" internal_pilocal) "@HOME" host_home

/-- Everything `prepare_sandbox` consults when building the environment
map: the host process environment (seeded whole by `Bubblewrap::new`), the
invoker's identity and workspace, the dependency directories with a
file-system existence test, and the package/workspace environment
overrides. -/
structure SandboxEnvInputs where
  hostEnv : List (String × String)
  host_home : String
  user : String
  cave_name : String
  cave_workspace : String
  dependency_dirs : List String
  pathIsThere : String → Bool
  package_envs : List (String × String)
  cave_set : List (String × String)

/-- Embedding of `setup_xdg_runtime`: re-export `XDG_RUNTIME_DIR` when the
host process environment has it. -/
def setup_xdg_runtime_env (hostEnv env : List (String × String)) :
    List (String × String) :=
  match alookup hostEnv "XDG_RUNTIME_DIR" with
  | some v => ainsert env "XDG_RUNTIME_DIR" v
  | none => env

/-- Embedding of `bind_dependencies`: for each existing dependency
directory whose `bin` subdirectory exists, prepend that subdirectory to
`PATH`. -/
def bind_dependencies_env (ex : String → Bool) (deps : List String)
    (env : List (String × String)) : List (String × String) :=
  deps.foldl
    (fun e dir =>
      if ex dir then
        if ex (dir ++ "/bin") then add_env_first e "PATH" (dir ++ "/bin") else e
      else e) env

/-- Embedding of `setup_environment`: set the identity variables and
prepend the five standard `PATH` entries in source order (`/usr/bin:/bin`,
`.local/bin`, `.cargo/bin`, `.mix/escripts`, `<pilocal>/bin`). -/
def setup_environment_env (host_home user workspace cave_name internal_pilocal : String)
    (env : List (String × String)) : List (String × String) :=
  let env3 := ainsert env "HOME" host_home
  let env4 := ainsert env3 "USER" user
  let env5 := ainsert env4 "PI_WORKSPACE" workspace
  let env6 := ainsert env5 "PI_CAVE" cave_name
  let env7 := add_env_first env6 "PATH" "/usr/bin:/bin"
  let env8 := add_env_first env7 "PATH" (host_home ++ "/.local/bin")
  let env9 := add_env_first env8 "PATH" (host_home ++ "/.cargo/bin")
  let env10 := add_env_first env9 "PATH" (host_home ++ "/.mix/escripts")
  add_env_first env10 "PATH" (internal_pilocal ++ "/bin")

/-- Embedding of `apply_custom_envs`: package envs first, then workspace
`set` entries, values substituted by `resolve`. -/
def apply_custom_envs_env (internal_pilocal host_home : String)
    (package_envs cave_set : List (String × String)) (env : List (String × String)) :
    List (String × String) :=
  let env12 := package_envs.foldl
    (fun e kv => ainsert e kv.1 (resolveEnvVal internal_pilocal host_home kv.2)) env
  cave_set.foldl
    (fun e kv => ainsert e kv.1 (resolveEnvVal internal_pilocal host_home kv.2)) env12

/-- Embedding of the environment-map construction of `prepare_sandbox`:
seed from the whole host environment (`Bubblewrap::new`), then apply the
stages in call order. -/
def prepare_sandbox_env (inp : SandboxEnvInputs) : List (String × String) :=
  let internal_pilocal := inp.host_home ++ "/.pilocal"
  apply_custom_envs_env internal_pilocal inp.host_home inp.package_envs inp.cave_set
    (setup_environment_env inp.host_home inp.user inp.cave_workspace inp.cave_name
      internal_pilocal
      (bind_dependencies_env inp.pathIsThere inp.dependency_dirs
        (setup_xdg_runtime_env inp.hostEnv inp.hostEnv)))

/-- Two environments agree outside one key. -/
def EnvAgreeOff (k : String) (f g : List (String × String)) : Prop :=
  ∀ j, j ≠ k → alookup f j = alookup g j

theorem envAgreeOff_ainsert {k : String} {f g : List (String × String)}
    (h : EnvAgreeOff k f g) (n v : String) : EnvAgreeOff k (ainsert f n v) (ainsert g n v) := by
  intro j hj
  rw [alookup_ainsert, alookup_ainsert]
  by_cases hn : n = j
  · simp [hn]
  · simp [hn, h j hj]

theorem envAgreeOff_add_env_first {k : String} {f g : List (String × String)}
    (h : EnvAgreeOff k f g) (n entry : String) (hn : n ≠ k) :
    EnvAgreeOff k (add_env_first f n entry) (add_env_first g n entry) := by
  unfold add_env_first
  rw [h n hn]
  exact envAgreeOff_ainsert h n _

theorem alookup_add_env_first_ne (env : List (String × String)) (n entry j : String)
    (hj : ¬ n = j) : alookup (add_env_first env n entry) j = alookup env j := by
  unfold add_env_first
  exact alookup_ainsert_ne _ _ _ _ hj

theorem envAgreeOff_deps_fold {k : String} (deps : List String) (ex : String → Bool)
    (hk : k ≠ "PATH") :
    ∀ {f g : List (String × String)}, EnvAgreeOff k f g →
      EnvAgreeOff k
        (deps.foldl (fun e dir =>
          if ex dir then
            if ex (dir ++ "/bin") then add_env_first e "PATH" (dir ++ "/bin") else e
          else e) f)
        (deps.foldl (fun e dir =>
          if ex dir then
            if ex (dir ++ "/bin") then add_env_first e "PATH" (dir ++ "/bin") else e
          else e) g) := by
  induction deps with
  | nil => intro f g h; exact h
  | cons d rest ih =>
    intro f g h
    simp only [List.foldl_cons]
    by_cases hd : ex d
    · by_cases hb : ex (d ++ "/bin")
      · simp only [hd, hb, if_pos]
        exact ih (envAgreeOff_add_env_first h "PATH" (d ++ "/bin") (fun he => hk he.symm))
      · simp only [hd, hb, if_pos, if_neg, Bool.false_eq_true, ite_false]
        exact ih h
    · simp only [hd, Bool.false_eq_true, if_false, ite_false]
      exact ih h

theorem deps_fold_alookup_ne (deps : List String) (ex : String → Bool) (k : String)
    (hk : ¬ "PATH" = k) :
    ∀ (f : List (String × String)),
      alookup (deps.foldl (fun e dir =>
        if ex dir then
          if ex (dir ++ "/bin") then add_env_first e "PATH" (dir ++ "/bin") else e
        else e) f) k = alookup f k := by
  induction deps with
  | nil => intro f; rfl
  | cons d rest ih =>
    intro f
    simp only [List.foldl_cons]
    by_cases hd : ex d
    · by_cases hb : ex (d ++ "/bin")
      · simp only [hd, hb, if_pos]
        rw [ih]
        exact alookup_add_env_first_ne f "PATH" (d ++ "/bin") k hk
      · simp only [hd, hb, if_pos, if_neg, Bool.false_eq_true, ite_false]
        exact ih f
    · simp only [hd, Bool.false_eq_true, if_false, ite_false]
      exact ih f

theorem envAgreeOff_custom_fold {k : String} (l : List (String × String))
    (pilocal home : String) :
    ∀ {f g : List (String × String)}, EnvAgreeOff k f g →
      EnvAgreeOff k
        (l.foldl (fun e kv => ainsert e kv.1 (resolveEnvVal pilocal home kv.2)) f)
        (l.foldl (fun e kv => ainsert e kv.1 (resolveEnvVal pilocal home kv.2)) g) := by
  induction l with
  | nil => intro f g h; exact h
  | cons kv rest ih =>
    intro f g h
    simp only [List.foldl_cons]
    exact ih (envAgreeOff_ainsert h kv.1 _)

theorem custom_fold_alookup_ne (l : List (String × String)) (pilocal home k : String)
    (hk : k ∉ l.map Prod.fst) :
    ∀ (f : List (String × String)),
      alookup (l.foldl (fun e kv => ainsert e kv.1 (resolveEnvVal pilocal home kv.2)) f) k =
        alookup f k := by
  induction l with
  | nil => intro f; rfl
  | cons kv rest ih =>
    intro f
    simp only [List.map_cons, List.mem_cons, not_or] at hk
    simp only [List.foldl_cons]
    rw [ih hk.2]
    exact alookup_ainsert_ne _ _ _ _ (fun he => hk.1 he.symm)

end PI

namespace PI

theorem envAgreeOff_setup_xdg {k : String} {e1 e2 : List (String × String)}
    (h : EnvAgreeOff k e1 e2) (hX : k ≠ "XDG_RUNTIME_DIR") :
    EnvAgreeOff k (setup_xdg_runtime_env e1 e1) (setup_xdg_runtime_env e2 e2) := by
  unfold setup_xdg_runtime_env
  rw [h "XDG_RUNTIME_DIR" (fun he => hX he.symm)]
  cases halo : alookup e2 "XDG_RUNTIME_DIR" with
  | some v => exact envAgreeOff_ainsert h _ _
  | none => exact h

theorem setup_xdg_alookup_ne (hostEnv env : List (String × String)) (k : String)
    (hX : ¬ "XDG_RUNTIME_DIR" = k) :
    alookup (setup_xdg_runtime_env hostEnv env) k = alookup env k := by
  unfold setup_xdg_runtime_env
  cases alookup hostEnv "XDG_RUNTIME_DIR" with
  | some v => exact alookup_ainsert_ne _ _ _ _ hX
  | none => rfl

theorem envAgreeOff_setup_environment {k : String} (hh user ws cname pilocal : String)
    {f g : List (String × String)} (h : EnvAgreeOff k f g) (hPATH : ¬ ("PATH" : String) = k) :
    EnvAgreeOff k (setup_environment_env hh user ws cname pilocal f)
      (setup_environment_env hh user ws cname pilocal g) := by
  unfold setup_environment_env
  exact envAgreeOff_add_env_first
    (envAgreeOff_add_env_first
      (envAgreeOff_add_env_first
        (envAgreeOff_add_env_first
          (envAgreeOff_add_env_first
            (envAgreeOff_ainsert (envAgreeOff_ainsert (envAgreeOff_ainsert
              (envAgreeOff_ainsert h "HOME" hh) "USER" user) "PI_WORKSPACE" ws)
              "PI_CAVE" cname)
            "PATH" "/usr/bin:/bin" hPATH)
          "PATH" (hh ++ "/.local/bin") hPATH)
        "PATH" (hh ++ "/.cargo/bin") hPATH)
      "PATH" (hh ++ "/.mix/escripts") hPATH)
    "PATH" (pilocal ++ "/bin") hPATH

theorem setup_environment_env_alookup_ne (hh user ws cname pilocal : String)
    (env : List (String × String)) (k : String)
    (hHOME : ¬ ("HOME" : String) = k) (hUSER : ¬ ("USER" : String) = k)
    (hPW : ¬ ("PI_WORKSPACE" : String) = k) (hPC : ¬ ("PI_CAVE" : String) = k)
    (hPATH : ¬ ("PATH" : String) = k) :
    alookup (setup_environment_env hh user ws cname pilocal env) k = alookup env k := by
  unfold setup_environment_env
  rw [alookup_add_env_first_ne _ _ _ _ hPATH, alookup_add_env_first_ne _ _ _ _ hPATH,
    alookup_add_env_first_ne _ _ _ _ hPATH, alookup_add_env_first_ne _ _ _ _ hPATH,
    alookup_add_env_first_ne _ _ _ _ hPATH, alookup_ainsert_ne _ _ _ _ hPC,
    alookup_ainsert_ne _ _ _ _ hPW, alookup_ainsert_ne _ _ _ _ hUSER,
    alookup_ainsert_ne _ _ _ _ hHOME]

theorem envAgreeOff_apply_custom {k : String} (pilocal hh : String)
    (pkg cset : List (String × String)) {f g : List (String × String)}
    (h : EnvAgreeOff k f g) :
    EnvAgreeOff k (apply_custom_envs_env pilocal hh pkg cset f)
      (apply_custom_envs_env pilocal hh pkg cset g) := by
  unfold apply_custom_envs_env
  exact envAgreeOff_custom_fold cset pilocal hh (envAgreeOff_custom_fold pkg pilocal hh h)

theorem apply_custom_alookup_ne (pilocal hh : String) (pkg cset : List (String × String))
    (env : List (String × String)) (k : String)
    (hpkg : k ∉ pkg.map Prod.fst) (hcset : k ∉ cset.map Prod.fst) :
    alookup (apply_custom_envs_env pilocal hh pkg cset env) k = alookup env k := by
  unfold apply_custom_envs_env
  rw [custom_fold_alookup_ne cset pilocal hh k hcset,
    custom_fold_alookup_ne pkg pilocal hh k hpkg]

/-- C10: the sandbox environment is seeded from the whole host process
environment; two constructions differing only in one host variable that the
builder never sets (not one of HOME/USER/PI_WORKSPACE/PI_CAVE/PATH/
XDG_RUNTIME_DIR, nor a package env or workspace `set` key) yield
environments that differ in exactly that variable, which is passed through
unchanged. -/
theorem c10_sandbox_inherits_host_env (e1 e2 pkg cset : List (String × String))
    (hh user cname ws : String) (deps : List String) (ex : String → Bool) (k : String)
    (hagree : ∀ j, j ≠ k → alookup e1 j = alookup e2 j)
    (hk : k ∉ (["HOME", "USER", "PI_WORKSPACE", "PI_CAVE", "PATH",
      "XDG_RUNTIME_DIR"] : List String))
    (hpkg : k ∉ pkg.map Prod.fst) (hcset : k ∉ cset.map Prod.fst) :
    (∀ j, j ≠ k →
      alookup (prepare_sandbox_env ⟨e1, hh, user, cname, ws, deps, ex, pkg, cset⟩) j =
        alookup (prepare_sandbox_env ⟨e2, hh, user, cname, ws, deps, ex, pkg, cset⟩) j) ∧
    alookup (prepare_sandbox_env ⟨e1, hh, user, cname, ws, deps, ex, pkg, cset⟩) k =
      alookup e1 k ∧
    alookup (prepare_sandbox_env ⟨e2, hh, user, cname, ws, deps, ex, pkg, cset⟩) k =
      alookup e2 k := by
  simp only [List.mem_cons, List.mem_singleton, not_or] at hk
  obtain ⟨hHOME, hUSER, hPW, hPC, hPATH, hXDG, -⟩ := hk
  have hPATHs : ¬ ("PATH" : String) = k := fun he => hPATH he.symm
  constructor
  · intro j hj
    have base : EnvAgreeOff k e1 e2 := hagree
    have h1 := envAgreeOff_setup_xdg base hXDG
    have h2 : EnvAgreeOff k
        (bind_dependencies_env ex deps (setup_xdg_runtime_env e1 e1))
        (bind_dependencies_env ex deps (setup_xdg_runtime_env e2 e2)) :=
      envAgreeOff_deps_fold deps ex hPATH h1
    have h3 := envAgreeOff_setup_environment hh user ws cname (hh ++ "/.pilocal") h2 hPATHs
    have h4 := envAgreeOff_apply_custom (hh ++ "/.pilocal") hh pkg cset h3
    exact h4 j hj
  · constructor
    · show alookup (apply_custom_envs_env _ _ _ _ _) k = _
      rw [apply_custom_alookup_ne _ _ _ _ _ _ hpkg hcset,
        setup_environment_env_alookup_ne _ _ _ _ _ _ _
          (fun he => hHOME he.symm) (fun he => hUSER he.symm) (fun he => hPW he.symm)
          (fun he => hPC he.symm) hPATHs]
      rw [show bind_dependencies_env ex deps (setup_xdg_runtime_env e1 e1) =
          deps.foldl (fun e dir =>
            if ex dir then
              if ex (dir ++ "/bin") then add_env_first e "PATH" (dir ++ "/bin") else e
            else e) (setup_xdg_runtime_env e1 e1) from rfl]
      rw [deps_fold_alookup_ne deps ex k hPATHs]
      exact setup_xdg_alookup_ne e1 e1 k (fun he => hXDG he.symm)
    · show alookup (apply_custom_envs_env _ _ _ _ _) k = _
      rw [apply_custom_alookup_ne _ _ _ _ _ _ hpkg hcset,
        setup_environment_env_alookup_ne _ _ _ _ _ _ _
          (fun he => hHOME he.symm) (fun he => hUSER he.symm) (fun he => hPW he.symm)
          (fun he => hPC he.symm) hPATHs]
      rw [show bind_dependencies_env ex deps (setup_xdg_runtime_env e2 e2) =
          deps.foldl (fun e dir =>
            if ex dir then
              if ex (dir ++ "/bin") then add_env_first e "PATH" (dir ++ "/bin") else e
            else e) (setup_xdg_runtime_env e2 e2) from rfl]
      rw [deps_fold_alookup_ne deps ex k hPATHs]
      exact setup_xdg_alookup_ne e2 e2 k (fun he => hXDG he.symm)

/-- Host environment for the first C10 witness run. -/
def c10EnvA : List (String × String) := [("FOO", "1"), ("PATH", "/x")]

/-- Host environment for the second C10 witness run (differs only in FOO). -/
def c10EnvB : List (String × String) := [("FOO", "2"), ("PATH", "/x")]

/-- Witness for C10 at two concrete host environments differing in FOO. -/
theorem c10_sandbox_inherits_host_env_witness :
    alookup (prepare_sandbox_env ⟨c10EnvA, "/h", "u", "c", "/w", [], fun _ => false,
      [], []⟩) "FOO" = alookup c10EnvA "FOO" ∧
    alookup (prepare_sandbox_env ⟨c10EnvB, "/h", "u", "c", "/w", [], fun _ => false,
      [], []⟩) "FOO" = alookup c10EnvB "FOO" := by
  have h := c10_sandbox_inherits_host_env c10EnvA c10EnvB [] [] "/h" "u" "c" "/w" []
    (fun _ => false) "FOO"
    (by
      intro j hj
      show (if "FOO" = j then some "1" else if "PATH" = j then some "/x" else none) =
        (if "FOO" = j then some "2" else if "PATH" = j then some "/x" else none)
      have hne : ¬ ("FOO" : String) = j := fun he => hj he.symm
      rw [if_neg hne, if_neg hne])
    (by decide) (by decide) (by decide)
  exact ⟨h.2.1, h.2.2⟩

end PI

namespace PI

/-! ## Algebra of the colon split and the PATH construction -/

theorem consHead_ne_nil (c : Char) (l : List (List Char)) : consHead c l ≠ [] := by
  cases l <;> simp [consHead]

theorem consHead_append (c : Char) (x y : List (List Char)) (h : x ≠ []) :
    consHead c (x ++ y) = consHead c x ++ y := by
  cases x with
  | nil => exact absurd rfl h
  | cons s ss => simp [consHead]

theorem charSplit_ne_nil (l : List Char) : charSplit l ≠ [] := by
  cases l with
  | nil => simp [charSplit]
  | cons c rest =>
    by_cases hc : c = ':'
    · simp [charSplit, hc]
    · simp only [charSplit, if_neg hc]
      exact consHead_ne_nil c _

theorem charSplit_append (a b : List Char) :
    charSplit (a ++ ':' :: b) = charSplit a ++ charSplit b := by
  induction a with
  | nil => simp [charSplit]
  | cons c a' ih =>
    by_cases hc : c = ':'
    · simp [charSplit, hc, ih]
    · rw [show charSplit (c :: a' ++ ':' :: b) = consHead c (charSplit (a' ++ ':' :: b))
          from by simp [charSplit, if_neg hc],
        show charSplit (c :: a') = consHead c (charSplit a')
          from by simp [charSplit, if_neg hc],
        ih, consHead_append c _ _ (charSplit_ne_nil a')]

theorem mem_consHead (c : Char) (l : List (List Char)) (s : List Char)
    (hs : s ∈ consHead c l) :
    (l = [] ∧ s = [c]) ∨ (∃ t ts, l = t :: ts ∧ (s = c :: t ∨ s ∈ ts)) := by
  cases l with
  | nil =>
    simp [consHead] at hs
    exact Or.inl ⟨rfl, hs⟩
  | cons t ts =>
    simp only [consHead, List.mem_cons] at hs
    exact Or.inr ⟨t, ts, rfl, hs⟩

theorem no_colon_of_mem_charSplit (l : List Char) :
    ∀ s ∈ charSplit l, ':' ∉ s := by
  induction l with
  | nil =>
    intro s hs
    simp only [charSplit, List.mem_singleton] at hs
    subst hs
    simp
  | cons c rest ih =>
    intro s hs
    by_cases hc : c = ':'
    · subst hc
      rw [show charSplit (':' :: rest) = [] :: charSplit rest from by simp [charSplit]] at hs
      rcases List.mem_cons.mp hs with hs | hs
      · subst hs; simp
      · exact ih s hs
    · simp only [charSplit, if_neg hc] at hs
      rcases mem_consHead c _ s hs with ⟨-, hst⟩ | ⟨t, ts, hl, hst | hst⟩
      · subst hst
        intro hmem
        simp only [List.mem_singleton] at hmem
        exact hc hmem.symm
      · subst hst
        intro hmem
        rcases List.mem_cons.mp hmem with hmem | hmem
        · exact hc hmem.symm
        · exact ih t (by rw [hl]; exact List.mem_cons_self _ _) hmem
      · exact ih s (by rw [hl]; exact List.mem_cons_of_mem _ hst)

theorem charSplit_of_no_colon (l : List Char) (h : ':' ∉ l) : charSplit l = [l] := by
  induction l with
  | nil => rfl
  | cons c rest ih =>
    simp only [List.mem_cons, not_or] at h
    have hcne : ¬ c = ':' := fun hc => h.1 hc.symm
    simp only [charSplit, if_neg hcne, ih h.2, consHead]

theorem splitColon_of_no_colon (s : String) (h : ':' ∉ s.data) : splitColon s = [s] := by
  unfold splitColon
  rw [charSplit_of_no_colon s.data h]
  simp

theorem splitColon_joinColon (l : List String) (h : l ≠ []) :
    splitColon (joinColon l) = l.flatMap splitColon := by
  induction l with
  | nil => exact absurd rfl h
  | cons a rest ih =>
    cases rest with
    | nil => simp [joinColon, splitColon]
    | cons b rest' =>
      have hdata : (a ++ ":" ++ joinColon (b :: rest')).data =
          a.data ++ ':' :: (joinColon (b :: rest')).data := by
        simp
      show splitColon (a ++ ":" ++ joinColon (b :: rest')) = _
      unfold splitColon
      rw [hdata, charSplit_append]
      rw [List.map_append]
      have := ih (by simp)
      unfold splitColon at this
      rw [this]
      simp [List.flatMap_cons, splitColon]

theorem pathParts_mem (s : String) : ∀ x ∈ pathParts s, ':' ∉ x.data ∧ ¬ x.data = [] := by
  intro x hx
  unfold pathParts splitColon at hx
  simp only [List.mem_filter, List.mem_map] at hx
  obtain ⟨⟨cs, hcs, hmk⟩, hne⟩ := hx
  constructor
  · rw [← hmk]
    exact no_colon_of_mem_charSplit s.data cs hcs
  · intro hd
    rw [hd] at hne
    simp at hne

theorem flatMap_splitColon_eq_self (P : List String) (h : ∀ x ∈ P, ':' ∉ x.data) :
    P.flatMap splitColon = P := by
  induction P with
  | nil => rfl
  | cons x rest ih =>
    rw [List.flatMap_cons, splitColon_of_no_colon x (h x (List.mem_cons_self _ _)),
      ih (fun y hy => h y (List.mem_cons_of_mem _ hy))]
    rfl

theorem pathParts_joinColon (P : List String) (hP1 : ∀ x ∈ P, ':' ∉ x.data)
    (hP2 : ∀ x ∈ P, ¬ x.data = []) (hne : P ≠ []) :
    pathParts (joinColon P) = P := by
  unfold pathParts
  rw [splitColon_joinColon P hne, flatMap_splitColon_eq_self P hP1]
  rw [List.filter_eq_self]
  intro a ha
  simpa using hP2 a ha

theorem pathParts_joinColon_cons (entry : String) (P : List String)
    (hP1 : ∀ x ∈ P, ':' ∉ x.data) (hP2 : ∀ x ∈ P, ¬ x.data = []) :
    pathParts (joinColon (entry :: P)) = pathParts entry ++ P := by
  unfold pathParts
  rw [splitColon_joinColon _ (by simp), List.flatMap_cons,
    flatMap_splitColon_eq_self P hP1, List.filter_append]
  have : P.filter (fun x => !x.data.isEmpty) = P := by
    rw [List.filter_eq_self]
    intro a ha
    simpa using hP2 a ha
  rw [this]

/-- The PATH parts of an environment map. -/
def envPathParts (env : List (String × String)) : List String :=
  pathParts ((alookup env "PATH").getD "")

theorem envPathParts_mem (env : List (String × String)) :
    ∀ x ∈ envPathParts env, ':' ∉ x.data ∧ ¬ x.data = [] :=
  pathParts_mem _

/-- Value stored by `add_env_first` on PATH. -/
theorem add_env_first_path_value (env : List (String × String)) (entry : String) :
    alookup (add_env_first env "PATH" entry) "PATH" =
      some (joinColon (if (envPathParts env).contains entry then envPathParts env
        else entry :: envPathParts env)) := by
  unfold add_env_first envPathParts
  exact alookup_ainsert_self _ _ _

/-- PATH parts after `add_env_first` on PATH: the entry is prepended
(resplit at colons) unless already present. -/
theorem envPathParts_add_env_first (env : List (String × String)) (entry : String) :
    envPathParts (add_env_first env "PATH" entry) =
      if (envPathParts env).contains entry then envPathParts env
      else pathParts entry ++ envPathParts env := by
  have hmem := envPathParts_mem env
  show pathParts ((alookup (add_env_first env "PATH" entry) "PATH").getD "") = _
  rw [add_env_first_path_value env entry]
  by_cases hc : (envPathParts env).contains entry
  · rw [if_pos hc, if_pos hc]
    have hne : envPathParts env ≠ [] := by
      intro h0
      rw [h0] at hc
      simp [List.contains] at hc
    exact pathParts_joinColon _ (fun x hx => (hmem x hx).1) (fun x hx => (hmem x hx).2) hne
  · rw [if_neg hc, if_neg hc]
    exact pathParts_joinColon_cons entry _ (fun x hx => (hmem x hx).1)
      (fun x hx => (hmem x hx).2)

theorem envPathParts_ainsert_ne (env : List (String × String)) (n v : String)
    (hn : ¬ n = "PATH") : envPathParts (ainsert env n v) = envPathParts env := by
  unfold envPathParts
  rw [alookup_ainsert_ne _ _ _ _ hn]

theorem contains_eq_false_of_not_mem {l : List String} {a : String} (h : a ∉ l) :
    l.contains a = false :=
  eq_false_of_ne_true (fun hc => h (List.mem_of_elem_eq_true hc))

/-- Adding a fresh colon-free nonempty entry prepends it to the parts. -/
theorem envPathParts_add_fresh (env : List (String × String)) (entry : String)
    (hc : ':' ∉ entry.data) (hne : ¬ entry.data = [])
    (hnmem : entry ∉ envPathParts env) :
    envPathParts (add_env_first env "PATH" entry) = entry :: envPathParts env := by
  rw [envPathParts_add_env_first, contains_eq_false_of_not_mem hnmem]
  simp only [Bool.false_eq_true, if_false, ite_false]
  unfold pathParts
  rw [splitColon_of_no_colon entry hc]
  simp [hne]

end PI

namespace PI

theorem no_colon_append (a b : String) (ha : ':' ∉ a.data) (hb : ':' ∉ b.data) :
    ':' ∉ (a ++ b).data := by
  rw [String.data_append]
  intro h
  rcases List.mem_append.mp h with h | h
  · exact ha h
  · exact hb h

theorem data_append_ne_nil (a b : String) (hb : ¬ b.data = []) : ¬ (a ++ b).data = [] := by
  rw [String.data_append]
  intro h
  exact hb (List.append_eq_nil.mp h).2

/-- Adding an entry that contains a colon always prepends (the parts are
colon-free, so the containment test never fires), and the entry is resplit. -/
theorem envPathParts_add_composite (env : List (String × String)) (entry : String)
    (hc : ':' ∈ entry.data) :
    envPathParts (add_env_first env "PATH" entry) = pathParts entry ++ envPathParts env := by
  rw [envPathParts_add_env_first,
    contains_eq_false_of_not_mem (fun hmem => ((envPathParts_mem env) entry hmem).1 hc)]
  simp

/-- The dependency `bin` directories actually prepended by
`bind_dependencies`: those whose directory and `bin` subdirectory exist. -/
def activeBins (ex : String → Bool) (deps : List String) : List String :=
  (deps.filter (fun d => ex d && ex (d ++ "/bin"))).map (fun d => d ++ "/bin")

theorem envPathParts_bind_dependencies (ex : String → Bool) :
    ∀ (deps : List String) (env : List (String × String)),
      (∀ d ∈ deps, ':' ∉ d.data) →
      (activeBins ex deps ++ envPathParts env).Nodup →
      envPathParts (bind_dependencies_env ex deps env) =
        (activeBins ex deps).reverse ++ envPathParts env := by
  intro deps
  induction deps with
  | nil =>
    intro env _ _
    simp [bind_dependencies_env, activeBins]
  | cons d rest ih =>
    intro env hcol hnd
    by_cases hd : ex d
    · by_cases hb : ex (d ++ "/bin")
      · have hbinAll : activeBins ex (d :: rest) = (d ++ "/bin") :: activeBins ex rest := by
          simp [activeBins, List.filter_cons, hd, hb]
        rw [hbinAll] at hnd
        have hstep : bind_dependencies_env ex (d :: rest) env =
            bind_dependencies_env ex rest (add_env_first env "PATH" (d ++ "/bin")) := by
          simp [bind_dependencies_env, hd, hb]
        have hcolbin : ':' ∉ (d ++ "/bin").data :=
          no_colon_append d "/bin" (hcol d (List.mem_cons_self _ _)) (by decide)
        have hnebin : ¬ (d ++ "/bin").data = [] :=
          data_append_ne_nil d "/bin" (by decide)
        have hfresh : (d ++ "/bin") ∉ envPathParts env := by
          intro hmem
          exact (List.nodup_cons.mp hnd).1 (List.mem_append_right _ hmem)
        have hadd := envPathParts_add_fresh env (d ++ "/bin") hcolbin hnebin hfresh
        rw [hstep, ih (add_env_first env "PATH" (d ++ "/bin"))
          (fun x hx => hcol x (List.mem_cons_of_mem _ hx))
          (by
            rw [hadd]
            exact (List.perm_middle.symm.nodup_iff).mp hnd), hadd, hbinAll]
        simp
      · have hbinAll : activeBins ex (d :: rest) = activeBins ex rest := by
          simp [activeBins, List.filter_cons, hd, hb]
        have hstep : bind_dependencies_env ex (d :: rest) env =
            bind_dependencies_env ex rest env := by
          simp [bind_dependencies_env, hd, hb]
        rw [hbinAll] at hnd ⊢
        rw [hstep]
        exact ih env (fun x hx => hcol x (List.mem_cons_of_mem _ hx)) hnd
    · have hbinAll : activeBins ex (d :: rest) = activeBins ex rest := by
        simp [activeBins, List.filter_cons, hd]
      have hstep : bind_dependencies_env ex (d :: rest) env =
          bind_dependencies_env ex rest env := by
        simp [bind_dependencies_env, hd]
      rw [hbinAll] at hnd ⊢
      rw [hstep]
      exact ih env (fun x hx => hcol x (List.mem_cons_of_mem _ hx)) hnd

end PI

namespace PI

/-- PATH value produced by `setup_environment` when the four home-derived
entries are fresh: five prepends leave the pilocal bin first, then
`.mix/escripts`, `.cargo/bin`, `.local/bin`, `/usr/bin`, `/bin`, then the
pre-existing parts. -/
theorem setup_environment_env_path (hh user ws cname pilocal : String)
    (env : List (String × String)) (hhc : ':' ∉ hh.data)
    (h1 : hh ++ "/.local/bin" ∉ "/usr/bin" :: "/bin" :: envPathParts env)
    (h2 : hh ++ "/.cargo/bin" ∉
      (hh ++ "/.local/bin") :: "/usr/bin" :: "/bin" :: envPathParts env)
    (h3 : hh ++ "/.mix/escripts" ∉ (hh ++ "/.cargo/bin") ::
      (hh ++ "/.local/bin") :: "/usr/bin" :: "/bin" :: envPathParts env)
    (h4 : pilocal ++ "/bin" ∉ (hh ++ "/.mix/escripts") :: (hh ++ "/.cargo/bin") ::
      (hh ++ "/.local/bin") :: "/usr/bin" :: "/bin" :: envPathParts env) :
    alookup (setup_environment_env hh user ws cname pilocal env) "PATH" =
      some (joinColon ((pilocal ++ "/bin") :: (hh ++ "/.mix/escripts") ::
        (hh ++ "/.cargo/bin") :: (hh ++ "/.local/bin") :: "/usr/bin" :: "/bin" ::
        envPathParts env)) := by
  simp only [setup_environment_env]
  set e6 := ainsert (ainsert (ainsert (ainsert env "HOME" hh) "USER" user)
    "PI_WORKSPACE" ws) "PI_CAVE" cname with he6def
  have hP6 : envPathParts e6 = envPathParts env := by
    rw [he6def, envPathParts_ainsert_ne _ _ _ (by decide),
      envPathParts_ainsert_ne _ _ _ (by decide), envPathParts_ainsert_ne _ _ _ (by decide),
      envPathParts_ainsert_ne _ _ _ (by decide)]
  set e7 := add_env_first e6 "PATH" "/usr/bin:/bin" with he7def
  have hP7 : envPathParts e7 = "/usr/bin" :: "/bin" :: envPathParts env := by
    rw [he7def, envPathParts_add_composite e6 _ (by decide), hP6]
    rw [show pathParts "/usr/bin:/bin" = ["/usr/bin", "/bin"] from by decide]
    rfl
  set e8 := add_env_first e7 "PATH" (hh ++ "/.local/bin") with he8def
  have hP8 : envPathParts e8 =
      (hh ++ "/.local/bin") :: "/usr/bin" :: "/bin" :: envPathParts env := by
    rw [he8def, envPathParts_add_fresh e7 _
      (no_colon_append hh "/.local/bin" hhc (by decide))
      (data_append_ne_nil hh "/.local/bin" (by decide))
      (by rw [hP7]; exact h1), hP7]
  set e9 := add_env_first e8 "PATH" (hh ++ "/.cargo/bin") with he9def
  have hP9 : envPathParts e9 = (hh ++ "/.cargo/bin") ::
      (hh ++ "/.local/bin") :: "/usr/bin" :: "/bin" :: envPathParts env := by
    rw [he9def, envPathParts_add_fresh e8 _
      (no_colon_append hh "/.cargo/bin" hhc (by decide))
      (data_append_ne_nil hh "/.cargo/bin" (by decide))
      (by rw [hP8]; exact h2), hP8]
  set e10 := add_env_first e9 "PATH" (hh ++ "/.mix/escripts") with he10def
  have hP10 : envPathParts e10 = (hh ++ "/.mix/escripts") :: (hh ++ "/.cargo/bin") ::
      (hh ++ "/.local/bin") :: "/usr/bin" :: "/bin" :: envPathParts env := by
    rw [he10def, envPathParts_add_fresh e9 _
      (no_colon_append hh "/.mix/escripts" hhc (by decide))
      (data_append_ne_nil hh "/.mix/escripts" (by decide))
      (by rw [hP9]; exact h3), hP9]
  rw [add_env_first_path_value e10 (pilocal ++ "/bin"),
    contains_eq_false_of_not_mem (by rw [hP10]; exact h4)]
  simp only [Bool.false_eq_true, if_false, ite_false]
  rw [hP10]

end PI

namespace PI

/-- C8 counterexample: with an empty host environment and home `/h`, the
constructed PATH is pilocal-bin, then `.mix/escripts`, then `.cargo/bin`,
then `.local/bin`, then `/usr/bin:/bin` — not the claimed order with
`.cargo/bin` before `.mix/escripts`. -/
theorem c8_path_order_counterexample :
    alookup (prepare_sandbox_env ⟨[], "/h", "u", "c", "/w", [], fun _ => false, [], []⟩)
        "PATH" =
      some "/h/.pilocal/bin:/h/.mix/escripts:/h/.cargo/bin:/h/.local/bin:/usr/bin:/bin" ∧
    ("/h/.pilocal/bin:/h/.mix/escripts:/h/.cargo/bin:/h/.local/bin:/usr/bin:/bin" : String) ≠
      "/h/.pilocal/bin:/h/.cargo/bin:/h/.mix/escripts:/h/.local/bin:/usr/bin:/bin" := by
  exact ⟨by decide, by decide⟩

/-- C8 (amended): the PATH handed to the sandbox is
`<composition-root>/bin`, then `<home>/.mix/escripts`, then
`<home>/.cargo/bin`, then `<home>/.local/bin`, then `/usr/bin`, `/bin`,
then the bin directories of existing dependency dirs (latest prepended
first), then the inherited host PATH entries — provided the entries are
pairwise distinct and fresh (an entry already present is not re-prepended)
and no package/workspace override rewrites PATH. -/
theorem c8_path_construction_amended (inp : SandboxEnvInputs)
    (hhome : ':' ∉ inp.host_home.data)
    (hdeps : ∀ d ∈ inp.dependency_dirs, ':' ∉ d.data)
    (hpkg : "PATH" ∉ inp.package_envs.map Prod.fst)
    (hcset : "PATH" ∉ inp.cave_set.map Prod.fst)
    (hnodup : (((inp.host_home ++ "/.pilocal") ++ "/bin") ::
        (inp.host_home ++ "/.mix/escripts") :: (inp.host_home ++ "/.cargo/bin") ::
        (inp.host_home ++ "/.local/bin") :: "/usr/bin" :: "/bin" ::
        ((activeBins inp.pathIsThere inp.dependency_dirs).reverse ++
          pathParts ((alookup inp.hostEnv "PATH").getD ""))).Nodup) :
    alookup (prepare_sandbox_env inp) "PATH" =
      some (joinColon (((inp.host_home ++ "/.pilocal") ++ "/bin") ::
        (inp.host_home ++ "/.mix/escripts") :: (inp.host_home ++ "/.cargo/bin") ::
        (inp.host_home ++ "/.local/bin") :: "/usr/bin" :: "/bin" ::
        ((activeBins inp.pathIsThere inp.dependency_dirs).reverse ++
          pathParts ((alookup inp.hostEnv "PATH").getD "")))) := by
  have hsx : envPathParts (setup_xdg_runtime_env inp.hostEnv inp.hostEnv) =
      pathParts ((alookup inp.hostEnv "PATH").getD "") := by
    unfold envPathParts
    rw [setup_xdg_alookup_ne _ _ _ (by decide)]
  have hn1 := List.nodup_cons.mp hnodup
  have hn2 := List.nodup_cons.mp hn1.2
  have hn3 := List.nodup_cons.mp hn2.2
  have hn4 := List.nodup_cons.mp hn3.2
  have hrevnodup : ((activeBins inp.pathIsThere inp.dependency_dirs).reverse ++
      pathParts ((alookup inp.hostEnv "PATH").getD "")).Nodup :=
    (List.nodup_cons.mp (List.nodup_cons.mp hn4.2).2).2
  have hndDeps : (activeBins inp.pathIsThere inp.dependency_dirs ++
      envPathParts (setup_xdg_runtime_env inp.hostEnv inp.hostEnv)).Nodup := by
    rw [hsx]
    exact ((List.reverse_perm _).append_right _).nodup_iff.mp hrevnodup
  have hdepsEq : envPathParts (bind_dependencies_env inp.pathIsThere inp.dependency_dirs
      (setup_xdg_runtime_env inp.hostEnv inp.hostEnv)) =
      (activeBins inp.pathIsThere inp.dependency_dirs).reverse ++
        pathParts ((alookup inp.hostEnv "PATH").getD "") := by
    rw [envPathParts_bind_dependencies _ _ _ hdeps hndDeps, hsx]
  simp only [prepare_sandbox_env]
  rw [apply_custom_alookup_ne _ _ _ _ _ _ hpkg hcset]
  rw [setup_environment_env_path inp.host_home inp.user inp.cave_workspace inp.cave_name
    (inp.host_home ++ "/.pilocal") _ hhome
    (by rw [hdepsEq]; exact hn4.1)
    (by rw [hdepsEq]; exact hn3.1)
    (by rw [hdepsEq]; exact hn2.1)
    (by rw [hdepsEq]; exact hn1.1)]
  rw [hdepsEq]

/-- Witness for the amended C8 theorem at a concrete empty host
environment. -/
theorem c8_path_construction_amended_witness :
    alookup (prepare_sandbox_env ⟨[], "/h", "u", "c", "/w", [], fun _ => false, [], []⟩)
        "PATH" =
      some (joinColon ((("/h" ++ "/.pilocal") ++ "/bin") :: ("/h" ++ "/.mix/escripts") ::
        ("/h" ++ "/.cargo/bin") :: ("/h" ++ "/.local/bin") :: "/usr/bin" :: "/bin" ::
        ((activeBins (fun _ => false) []).reverse ++
          pathParts ((alookup ([] : List (String × String)) "PATH").getD "")))) :=
  c8_path_construction_amended ⟨[], "/h", "u", "c", "/w", [], fun _ => false, [], []⟩
    (by decide) (by simp) (by simp) (by simp) (by decide)

end PI

namespace PI

/-! ## Dependency scheduler (src/commands/cave/build.rs, topological_sort) -/

/-- The dependency-resolved package map: query string → (concrete version
record, repository name). -/
def ResolvedMap : Type := List (String × (VersionEntry × String))

/-- Dependency names of a query: the build-dependency names of its resolved
record, or none when the query is not in the map (`if let Some` in
`topo_sort_dfs`). -/
def depsOf (resolved : ResolvedMap) (q : String) : List String :=
  match alookup resolved q with
  | some p => p.1.build_dependencies.map (fun d => d.name)
  | none => []

/-- A declared build-dependency edge: `a` depends on `b`. -/
def Edge (resolved : ResolvedMap) (a b : String) : Prop := b ∈ depsOf resolved a

/-- Embedding of the mutable state threaded through `topo_sort_dfs`. -/
structure DfsState where
  visited : List String
  temp_visited : List String
  sorted : List String
deriving DecidableEq, Repr

/-- Scheduler errors: the cycle error of `topo_sort_dfs`, plus the fuel
sentinel of the embedding (proved unreachable for the fuel used by
`topological_sort`). -/
inductive TopoErr where
  | circular (pkg : String)
  | fuelExhausted
deriving DecidableEq, Repr

/-- Embedding of `topo_sort_dfs`: bail out on a temporarily-visited node,
return on a visited one, otherwise mark temporary, recurse into the
dependencies, unmark, mark visited and append to the order. -/
def topo_sort_dfs (resolved : ResolvedMap) :
    Nat → String → DfsState → Except TopoErr DfsState
  | 0, _, _ => .error .fuelExhausted
  | fuel + 1, query, st =>
    if query ∈ st.temp_visited then .error (.circular query)
    else if query ∈ st.visited then .ok st
    else
      match (depsOf resolved query).foldlM (fun s d => topo_sort_dfs resolved fuel d s)
          (DfsState.mk st.visited (query :: st.temp_visited) st.sorted) with
      | .error e => .error e
      | .ok st2 => .ok ⟨query :: st2.visited, st2.temp_visited.erase query,
          st2.sorted ++ [query]⟩

/-- All node names mentioned by the map (keys and dependency names); its
size bounds the recursion depth of the DFS. -/
def topo_universe (resolved : ResolvedMap) : List String :=
  resolved.map Prod.fst ++
    (resolved.map (fun p => p.2.1.build_dependencies.map (fun d => d.name))).flatten

/-- Embedding of `topological_sort`: run the DFS from every key of the
resolved map, threading the state. -/
def topological_sort (resolved : ResolvedMap) : Except TopoErr (List String) :=
  match (resolved.map Prod.fst).foldlM
      (fun st query => topo_sort_dfs resolved ((topo_universe resolved).length + 1) query st)
      (DfsState.mk [] [] []) with
  | .error e => .error e
  | .ok st => .ok st.sorted

/-- b appears strictly before a in the list. -/
def Before (l : List String) (b a : String) : Prop :=
  ∃ i j : Nat, i < j ∧ l[i]? = some b ∧ l[j]? = some a

/-- The declared build-dependency graph has no cycle. -/
def Acyclic (resolved : ResolvedMap) : Prop :=
  ∀ q, ¬ Relation.TransGen (Edge resolved) q q

/-- The temporary-visited stack is an edge chain ending at the current
query. -/
def StackChain (resolved : ResolvedMap) : List String → String → Prop
  | [], _ => True
  | t :: rest, q => Edge resolved t q ∧ StackChain resolved rest t

/-- Invariant of the DFS state: the visited set mirrors the emitted order,
the order is duplicate-free, and every emitted node's dependencies appear
strictly before it. -/
structure GoodState (resolved : ResolvedMap) (st : DfsState) : Prop where
  nodup : st.sorted.Nodup
  vis_iff : ∀ x, x ∈ st.visited ↔ x ∈ st.sorted
  closed : ∀ a ∈ st.sorted, ∀ b, Edge resolved a b → Before st.sorted b a

theorem lt_length_of_getElem? {l : List String} {i : Nat} {a : String}
    (h : l[i]? = some a) : i < l.length := by
  by_contra hc
  rw [List.getElem?_eq_none (by omega)] at h
  exact Option.noConfusion h

theorem before_append (l t : List String) (b a : String) (h : Before l b a) :
    Before (l ++ t) b a := by
  obtain ⟨i, j, hij, hi, hj⟩ := h
  have hjl := lt_length_of_getElem? hj
  exact ⟨i, j, hij, by rw [List.getElem?_append_left (by omega)]; exact hi,
    by rw [List.getElem?_append_left hjl]; exact hj⟩

theorem before_concat_self (l : List String) (b q : String) (hb : b ∈ l) :
    Before (l ++ [q]) b q := by
  obtain ⟨i, hi⟩ := List.mem_iff_getElem?.mp hb
  have hil := lt_length_of_getElem? hi
  exact ⟨i, l.length, hil, by rw [List.getElem?_append_left hil]; exact hi,
    List.getElem?_concat_length l q⟩

theorem before_trans {l : List String} (hnd : l.Nodup) {a b c : String}
    (h1 : Before l b a) (h2 : Before l c b) : Before l c a := by
  obtain ⟨i, j, hij, hi, hj⟩ := h1
  obtain ⟨i', j', hij', hi', hj'⟩ := h2
  have : j' = i := List.getElem?_inj (lt_length_of_getElem? hj') hnd (hj'.trans hi.symm)
  exact ⟨i', j, by omega, hi', hj⟩

theorem before_irrefl {l : List String} (hnd : l.Nodup) (c : String) :
    ¬ Before l c c := by
  rintro ⟨i, j, hij, hi, hj⟩
  have : i = j := List.getElem?_inj (lt_length_of_getElem? hi) hnd (hi.trans hj.symm)
  omega

theorem count_eq_one_of_nodup_mem {l : List String} (hnd : l.Nodup) {a : String}
    (hm : a ∈ l) : l.count a = 1 := by
  have h1 := List.nodup_iff_count_le_one.mp hnd a
  have h2 := List.count_pos_iff.mpr hm
  omega

theorem alookup_some_mem {α : Type} (l : List (String × α)) (k : String) (v : α)
    (h : alookup l k = some v) : (k, v) ∈ l := by
  induction l with
  | nil => exact Option.noConfusion h
  | cons p rest ih =>
    obtain ⟨pk, pv⟩ := p
    by_cases hpk : pk = k
    · subst hpk
      simp only [alookup, if_pos rfl] at h
      injection h with h
      subst h
      exact List.mem_cons_self _ _
    · simp only [alookup, if_neg hpk] at h
      exact List.mem_cons_of_mem _ (ih h)

theorem edge_source_mem_keys {resolved : ResolvedMap} {a b : String}
    (h : Edge resolved a b) : a ∈ resolved.map Prod.fst := by
  unfold Edge depsOf at h
  cases halo : alookup resolved a with
  | none => rw [halo] at h; simp at h
  | some p =>
    exact List.mem_map.mpr ⟨(a, p), alookup_some_mem resolved a p halo, rfl⟩

theorem depsOf_subset_universe {resolved : ResolvedMap} {q d : String}
    (h : d ∈ depsOf resolved q) : d ∈ topo_universe resolved := by
  unfold depsOf at h
  cases halo : alookup resolved q with
  | none => rw [halo] at h; exact absurd h (List.not_mem_nil d)
  | some p =>
    rw [halo] at h
    refine List.mem_append_right _ ?_
    rw [List.mem_flatten]
    exact ⟨p.1.build_dependencies.map (fun x => x.name),
      List.mem_map.mpr ⟨(q, p), alookup_some_mem resolved q p halo, rfl⟩, h⟩

theorem chain_reaches (resolved : ResolvedMap) :
    ∀ (l : List String) (x c : String), StackChain resolved l x → c ∈ l →
      Relation.TransGen (Edge resolved) c x := by
  intro l
  induction l with
  | nil =>
    intro x c _ hc
    exact absurd hc (List.not_mem_nil c)
  | cons t rest ih =>
    intro x c hchain hc
    obtain ⟨hedge, hrest⟩ := hchain
    rcases List.mem_cons.mp hc with hc | hc
    · subst hc
      exact Relation.TransGen.single hedge
    · exact Relation.TransGen.tail (ih t c hrest hc) hedge

theorem goodState_empty (resolved : ResolvedMap) : GoodState resolved ⟨[], [], []⟩ :=
  ⟨List.nodup_nil, fun x => by simp, fun a ha => absurd ha (List.not_mem_nil a)⟩

end PI

namespace PI

theorem foldlM_except_nil {ε σ α : Type} (f : σ → α → Except ε σ) (s : σ) :
    ([] : List α).foldlM f s = .ok s := rfl

theorem foldlM_except_cons {ε σ α : Type} (f : σ → α → Except ε σ) (a : α) (l : List α)
    (s : σ) : (a :: l).foldlM f s = f s a >>= fun s' => l.foldlM f s' := rfl

theorem dfs_temp_eq (resolved : ResolvedMap) :
    ∀ (fuel : Nat) (q : String) (st st' : DfsState),
      topo_sort_dfs resolved fuel q st = .ok st' → st'.temp_visited = st.temp_visited := by
  intro fuel
  induction fuel with
  | zero =>
    intro q st st' h
    exact Except.noConfusion h
  | succ fuel ih =>
    have hfold : ∀ (l : List String) (st st' : DfsState),
        l.foldlM (fun s d => topo_sort_dfs resolved fuel d s) st = .ok st' →
        st'.temp_visited = st.temp_visited := by
      intro l
      induction l with
      | nil =>
        intro st st' h
        rw [foldlM_except_nil] at h
        injection h with h
        rw [← h]
      | cons d ds ihl =>
        intro st st' h
        rw [foldlM_except_cons] at h
        cases hd : topo_sort_dfs resolved fuel d st with
        | error e => rw [hd] at h; exact Except.noConfusion h
        | ok st1 =>
          rw [hd] at h
          rw [ihl st1 st' h, ih d st st1 hd]
    intro q st st' h
    rw [topo_sort_dfs] at h
    by_cases h1 : q ∈ st.temp_visited
    · rw [if_pos h1] at h
      exact Except.noConfusion h
    · rw [if_neg h1] at h
      by_cases h2 : q ∈ st.visited
      · rw [if_pos h2] at h
        injection h with h
        rw [← h]
      · rw [if_neg h2] at h
        cases hf : (depsOf resolved q).foldlM (fun s d => topo_sort_dfs resolved fuel d s)
            (DfsState.mk st.visited (q :: st.temp_visited) st.sorted) with
        | error e => rw [hf] at h; exact Except.noConfusion h
        | ok st2 =>
          rw [hf] at h
          injection h with h
          rw [← h]
          show st2.temp_visited.erase q = st.temp_visited
          rw [hfold _ _ _ hf]
          exact List.erase_cons_head q st.temp_visited

/-- Postcondition of a successful DFS call. -/
def DfsPost (resolved : ResolvedMap) (q : String) (st st' : DfsState) : Prop :=
  GoodState resolved st' ∧
  (∀ x ∈ st.visited, x ∈ st'.visited) ∧
  q ∈ st'.visited ∧
  (∃ t, st'.sorted = st.sorted ++ t) ∧
  (∀ x ∈ st'.visited, x ∈ st.visited ∨ x ∉ st.temp_visited)

theorem dfsList_ok (resolved : ResolvedMap) (fuel : Nat)
    (ihdfs : ∀ q st st', topo_sort_dfs resolved fuel q st = .ok st' →
      GoodState resolved st → DfsPost resolved q st st') :
    ∀ (l : List String) (st st' : DfsState),
      l.foldlM (fun s d => topo_sort_dfs resolved fuel d s) st = .ok st' →
      GoodState resolved st →
      GoodState resolved st' ∧
      (∀ x ∈ st.visited, x ∈ st'.visited) ∧
      (∀ d ∈ l, d ∈ st'.visited) ∧
      (∃ t, st'.sorted = st.sorted ++ t) ∧
      (∀ x ∈ st'.visited, x ∈ st.visited ∨ x ∉ st.temp_visited) := by
  intro l
  induction l with
  | nil =>
    intro st st' h hg
    rw [foldlM_except_nil] at h
    injection h with h
    subst h
    exact ⟨hg, fun x hx => hx, fun d hd => absurd hd (List.not_mem_nil d),
      ⟨[], by simp⟩, fun x hx => Or.inl hx⟩
  | cons d ds ihl =>
    intro st st' h hg
    rw [foldlM_except_cons] at h
    cases hd : topo_sort_dfs resolved fuel d st with
    | error e => rw [hd] at h; exact Except.noConfusion h
    | ok st1 =>
      rw [hd] at h
      obtain ⟨hg1, hmono1, hdvis, ⟨t1, hs1⟩, hdisj1⟩ := ihdfs d st st1 hd hg
      obtain ⟨hg2, hmono2, hds, ⟨t2, hs2⟩, hdisj2⟩ := ihl st1 st' h hg1
      have htemp1 : st1.temp_visited = st.temp_visited :=
        dfs_temp_eq resolved fuel d st st1 hd
      refine ⟨hg2, fun x hx => hmono2 x (hmono1 x hx), ?_,
        ⟨t1 ++ t2, by rw [hs2, hs1, List.append_assoc]⟩, ?_⟩
      · intro d' hd'
        rcases List.mem_cons.mp hd' with hd' | hd'
        · subst hd'
          exact hmono2 _ hdvis
        · exact hds d' hd'
      · intro x hx
        rcases hdisj2 x hx with hx1 | hx1
        · exact hdisj1 x hx1
        · rw [htemp1] at hx1
          exact Or.inr hx1

theorem dfs_ok (resolved : ResolvedMap) :
    ∀ (fuel : Nat) (q : String) (st st' : DfsState),
      topo_sort_dfs resolved fuel q st = .ok st' → GoodState resolved st →
      DfsPost resolved q st st' := by
  intro fuel
  induction fuel with
  | zero =>
    intro q st st' h _
    exact Except.noConfusion h
  | succ fuel ih =>
    intro q st st' h hg
    rw [topo_sort_dfs] at h
    by_cases h1 : q ∈ st.temp_visited
    · rw [if_pos h1] at h
      exact Except.noConfusion h
    · rw [if_neg h1] at h
      by_cases h2 : q ∈ st.visited
      · rw [if_pos h2] at h
        injection h with h
        subst h
        exact ⟨hg, fun x hx => hx, h2, ⟨[], by simp⟩, fun x hx => Or.inl hx⟩
      · rw [if_neg h2] at h
        cases hf : (depsOf resolved q).foldlM (fun s d => topo_sort_dfs resolved fuel d s)
            (DfsState.mk st.visited (q :: st.temp_visited) st.sorted) with
        | error e => rw [hf] at h; exact Except.noConfusion h
        | ok st2 =>
          rw [hf] at h
          injection h with h
          have hg1 : GoodState resolved
              (DfsState.mk st.visited (q :: st.temp_visited) st.sorted) :=
            ⟨hg.nodup, hg.vis_iff, hg.closed⟩
          obtain ⟨hg2, hmono, hdeps, ⟨t, hsort⟩, hdisj⟩ :=
            dfsList_ok resolved fuel ih (depsOf resolved q) _ st2 hf hg1
          have hqnotsorted : q ∉ st2.sorted := by
            intro hmem
            have hqvis : q ∈ st2.visited := (hg2.vis_iff q).mpr hmem
            rcases hdisj q hqvis with h' | h'
            · exact h2 h'
            · exact h' (List.mem_cons_self q st.temp_visited)
          subst h
          refine ⟨⟨?_, ?_, ?_⟩, ?_, List.mem_cons_self _ _,
            ⟨t ++ [q], by rw [hsort]; simp⟩, ?_⟩
          · rw [List.nodup_append]
            refine ⟨hg2.nodup, List.nodup_singleton q, ?_⟩
            intro a ha hamem
            rw [List.mem_singleton] at hamem
            subst hamem
            exact hqnotsorted ha
          · intro x
            constructor
            · intro hx
              rcases List.mem_cons.mp hx with hx | hx
              · subst hx
                exact List.mem_append_right _ (List.mem_singleton.mpr rfl)
              · exact List.mem_append_left _ ((hg2.vis_iff x).mp hx)
            · intro hx
              rcases List.mem_append.mp hx with hx | hx
              · exact List.mem_cons_of_mem _ ((hg2.vis_iff x).mpr hx)
              · rw [List.mem_singleton] at hx
                subst hx
                exact List.mem_cons_self _ _
          · intro a ha b hedge
            rcases List.mem_append.mp ha with ha | ha
            · exact before_append _ _ _ _ (hg2.closed a ha b hedge)
            · rw [List.mem_singleton] at ha
              subst ha
              have hb : b ∈ st2.visited := hdeps b hedge
              exact before_concat_self _ _ _ ((hg2.vis_iff b).mp hb)
          · intro x hx
            exact List.mem_cons_of_mem _ (hmono x hx)
          · intro x hx
            rcases List.mem_cons.mp hx with hx | hx
            · subst hx
              exact Or.inr h1
            · rcases hdisj x hx with h' | h'
              · exact Or.inl h'
              · exact Or.inr (fun hmem => h' (List.mem_cons_of_mem _ hmem))

end PI

namespace PI

theorem dfsList_err (resolved : ResolvedMap) (fuel : Nat)
    (ihdfs : ∀ q st c, topo_sort_dfs resolved fuel q st = .error (.circular c) →
      StackChain resolved st.temp_visited q → Relation.TransGen (Edge resolved) c c) :
    ∀ (l : List String) (st : DfsState) (c : String),
      l.foldlM (fun s d => topo_sort_dfs resolved fuel d s) st = .error (.circular c) →
      (∀ d ∈ l, StackChain resolved st.temp_visited d) →
      Relation.TransGen (Edge resolved) c c := by
  intro l
  induction l with
  | nil =>
    intro st c h _
    rw [foldlM_except_nil] at h
    exact Except.noConfusion h
  | cons d ds ihl =>
    intro st c h hchain
    rw [foldlM_except_cons] at h
    cases hd : topo_sort_dfs resolved fuel d st with
    | error e =>
      rw [hd] at h
      cases e with
      | circular c' =>
        have hcc : c' = c := by
          injection h with h2
          injection h2 with h3
        subst hcc
        exact ihdfs d st c' hd (hchain d (List.mem_cons_self _ _))
      | fuelExhausted =>
        injection h with h2
        exact TopoErr.noConfusion h2
    | ok st1 =>
      rw [hd] at h
      have htemp := dfs_temp_eq resolved fuel d st st1 hd
      refine ihl st1 c h ?_
      intro d' hd'
      rw [htemp]
      exact hchain d' (List.mem_cons_of_mem _ hd')

theorem dfs_err (resolved : ResolvedMap) :
    ∀ (fuel : Nat) (q : String) (st : DfsState) (c : String),
      topo_sort_dfs resolved fuel q st = .error (.circular c) →
      StackChain resolved st.temp_visited q →
      Relation.TransGen (Edge resolved) c c := by
  intro fuel
  induction fuel with
  | zero =>
    intro q st c h _
    injection h with h2
    exact TopoErr.noConfusion h2
  | succ fuel ih =>
    intro q st c h hchain
    rw [topo_sort_dfs] at h
    by_cases h1 : q ∈ st.temp_visited
    · rw [if_pos h1] at h
      have hqc : q = c := by
        injection h with h2
        injection h2 with h3
      subst hqc
      exact chain_reaches resolved st.temp_visited q q hchain h1
    · rw [if_neg h1] at h
      by_cases h2 : q ∈ st.visited
      · rw [if_pos h2] at h
        exact Except.noConfusion h
      · rw [if_neg h2] at h
        cases hf : (depsOf resolved q).foldlM (fun s d => topo_sort_dfs resolved fuel d s)
            (DfsState.mk st.visited (q :: st.temp_visited) st.sorted) with
        | error e =>
          rw [hf] at h
          have hec : e = .circular c := by injection h with h2
          subst hec
          exact dfsList_err resolved fuel ih (depsOf resolved q) _ c hf
            (fun d hd => ⟨hd, hchain⟩)
        | ok st2 =>
          rw [hf] at h
          exact Except.noConfusion h

theorem dfsList_fuel (resolved : ResolvedMap) (fuel : Nat)
    (ihdfs : ∀ q st, q ∈ topo_universe resolved → st.temp_visited.Nodup →
      (∀ t ∈ st.temp_visited, t ∈ topo_universe resolved) →
      (topo_universe resolved).length - st.temp_visited.length < fuel →
      topo_sort_dfs resolved fuel q st ≠ .error .fuelExhausted) :
    ∀ (l : List String) (st : DfsState),
      (∀ d ∈ l, d ∈ topo_universe resolved) → st.temp_visited.Nodup →
      (∀ t ∈ st.temp_visited, t ∈ topo_universe resolved) →
      (topo_universe resolved).length - st.temp_visited.length < fuel →
      l.foldlM (fun s d => topo_sort_dfs resolved fuel d s) st ≠
        .error .fuelExhausted := by
  intro l
  induction l with
  | nil =>
    intro st _ _ _ _ h
    rw [foldlM_except_nil] at h
    exact Except.noConfusion h
  | cons d ds ihl =>
    intro st hl hnd hsub hlen h
    rw [foldlM_except_cons] at h
    cases hd : topo_sort_dfs resolved fuel d st with
    | error e =>
      rw [hd] at h
      have hef : e = .fuelExhausted := by injection h with h2
      subst hef
      exact ihdfs d st (hl d (List.mem_cons_self _ _)) hnd hsub hlen hd
    | ok st1 =>
      rw [hd] at h
      have htemp := dfs_temp_eq resolved fuel d st st1 hd
      refine ihl st1 (fun d' hd' => hl d' (List.mem_cons_of_mem _ hd')) ?_ ?_ ?_ h
      · rw [htemp]; exact hnd
      · intro t ht
        rw [htemp] at ht
        exact hsub t ht
      · rw [htemp]; exact hlen

theorem dfs_fuel (resolved : ResolvedMap) :
    ∀ (fuel : Nat) (q : String) (st : DfsState),
      q ∈ topo_universe resolved → st.temp_visited.Nodup →
      (∀ t ∈ st.temp_visited, t ∈ topo_universe resolved) →
      (topo_universe resolved).length - st.temp_visited.length < fuel →
      topo_sort_dfs resolved fuel q st ≠ .error .fuelExhausted := by
  intro fuel
  induction fuel with
  | zero =>
    intro q st _ _ _ hlen
    exact absurd hlen (Nat.not_lt_zero _)
  | succ fuel ih =>
    intro q st hq hnd hsub hlen h
    rw [topo_sort_dfs] at h
    by_cases h1 : q ∈ st.temp_visited
    · rw [if_pos h1] at h
      injection h with h2
      exact TopoErr.noConfusion h2
    · rw [if_neg h1] at h
      by_cases h2 : q ∈ st.visited
      · rw [if_pos h2] at h
        exact Except.noConfusion h
      · rw [if_neg h2] at h
        cases hf : (depsOf resolved q).foldlM (fun s d => topo_sort_dfs resolved fuel d s)
            (DfsState.mk st.visited (q :: st.temp_visited) st.sorted) with
        | ok st2 => rw [hf] at h; exact Except.noConfusion h
        | error e =>
          rw [hf] at h
          have hef : e = .fuelExhausted := by injection h with h2
          subst hef
          have hndq : (q :: st.temp_visited).Nodup := List.nodup_cons.mpr ⟨h1, hnd⟩
          have hsubq : ∀ t ∈ q :: st.temp_visited, t ∈ topo_universe resolved := by
            intro t ht
            rcases List.mem_cons.mp ht with ht | ht
            · subst ht; exact hq
            · exact hsub t ht
          have hle : (q :: st.temp_visited).length ≤ (topo_universe resolved).length :=
            (List.subperm_of_subset hndq (fun t ht => hsubq t ht)).length_le
          have hlen' : (topo_universe resolved).length -
              (q :: st.temp_visited).length < fuel := by
            simp only [List.length_cons] at hle ⊢
            omega
          exact dfsList_fuel resolved fuel ih (depsOf resolved q) _
            (fun d hd => depsOf_subset_universe hd) hndq hsubq hlen' hf

theorem transgen_before (resolved : ResolvedMap) {l : List String} (hnd : l.Nodup)
    (hedge : ∀ a b, Edge resolved a b → Before l b a) {x y : String}
    (h : Relation.TransGen (Edge resolved) x y) : Before l y x := by
  induction h with
  | single he => exact hedge _ _ he
  | tail _ he ih => exact before_trans hnd ih (hedge _ _ he)

end PI

namespace PI

/-- C1: on an acyclic declared dependency graph the scheduler emits an
order containing each resolved package exactly once in which every
dependency precedes its dependent; on a cyclic graph it returns the
circular-dependency error naming a package that lies on a cycle. -/
theorem c1_topological_sort (resolved : ResolvedMap) :
    (Acyclic resolved →
      ∃ order, topological_sort resolved = .ok order ∧
        (∀ q ∈ resolved.map Prod.fst, order.count q = 1) ∧
        (∀ a b, Edge resolved a b → b ∈ resolved.map Prod.fst → Before order b a)) ∧
    (¬ Acyclic resolved →
      ∃ c, topological_sort resolved = .error (.circular c) ∧
        Relation.TransGen (Edge resolved) c c) := by
  unfold topological_sort
  cases hres : (resolved.map Prod.fst).foldlM
      (fun st query => topo_sort_dfs resolved ((topo_universe resolved).length + 1)
        query st)
      (DfsState.mk [] [] []) with
  | ok stf =>
    obtain ⟨hg, -, hkeys, -, -⟩ := dfsList_ok resolved _ (dfs_ok resolved _)
      (resolved.map Prod.fst) _ stf hres (goodState_empty resolved)
    have hedge_before : ∀ a b, Edge resolved a b → Before stf.sorted b a := by
      intro a b he
      have ha : a ∈ resolved.map Prod.fst := edge_source_mem_keys he
      exact hg.closed a ((hg.vis_iff a).mp (hkeys a ha)) b he
    have hAcyclic : Acyclic resolved := by
      intro c hc
      exact before_irrefl hg.nodup c (transgen_before resolved hg.nodup hedge_before hc)
    constructor
    · intro _
      refine ⟨stf.sorted, rfl, ?_, ?_⟩
      · intro q hq
        exact count_eq_one_of_nodup_mem hg.nodup ((hg.vis_iff q).mp (hkeys q hq))
      · intro a b he _
        exact hedge_before a b he
    · intro hnot
      exact absurd hAcyclic hnot
  | error e =>
    cases e with
    | fuelExhausted =>
      exact absurd hres (dfsList_fuel resolved _ (dfs_fuel resolved _)
        (resolved.map Prod.fst) ⟨[], [], []⟩
        (fun d hd => List.mem_append_left _ hd) List.nodup_nil
        (fun t ht => absurd ht (List.not_mem_nil t)) (by simp))
    | circular c =>
      have htc : Relation.TransGen (Edge resolved) c c :=
        dfsList_err resolved _ (dfs_err resolved _) (resolved.map Prod.fst)
          ⟨[], [], []⟩ c hres (fun d _ => trivial)
      exact ⟨fun hA => absurd htc (hA c), fun _ => ⟨c, rfl, htc⟩⟩

/-- A version record of the C1 witness that depends on "b". -/
def c1ExampleVersionA : VersionEntry :=
  { pkgname := "a", version := ⟨[1], "1"⟩, release_date := "", release_type := .stable,
    stream := "", pipeline := [], exports := [], flags := [],
    build_dependencies := [⟨"b", false⟩] }

/-- A dependency-free version record of the C1 witness. -/
def c1ExampleVersionB : VersionEntry :=
  { pkgname := "b", version := ⟨[1], "1"⟩, release_date := "", release_type := .stable,
    stream := "", pipeline := [], exports := [], flags := [],
    build_dependencies := [] }

/-- Concrete resolved map of the C1 witness: a depends on b. -/
def c1ExampleResolved : ResolvedMap :=
  [("a", (c1ExampleVersionA, "repo")), ("b", (c1ExampleVersionB, "repo"))]

theorem c1Example_edge (x y : String) (h : Edge c1ExampleResolved x y) :
    x = "a" ∧ y = "b" := by
  unfold Edge at h
  by_cases hx : "a" = x
  · refine ⟨hx.symm, ?_⟩
    rw [← hx] at h
    rw [show depsOf c1ExampleResolved "a" = ["b"] from rfl] at h
    simpa using h
  · by_cases hx2 : "b" = x
    · rw [← hx2] at h
      rw [show depsOf c1ExampleResolved "b" = [] from rfl] at h
      exact absurd h (List.not_mem_nil y)
    · unfold depsOf at h
      rw [show alookup c1ExampleResolved x = none from by
        simp [c1ExampleResolved, alookup, hx, hx2]] at h
      exact absurd h (List.not_mem_nil y)

theorem c1Example_acyclic : Acyclic c1ExampleResolved := by
  have htarget : ∀ x y, Relation.TransGen (Edge c1ExampleResolved) x y → y = "b" := by
    intro x y h
    induction h with
    | single he => exact (c1Example_edge _ _ he).2
    | tail _ he _ => exact (c1Example_edge _ _ he).2
  intro q htc
  have hq := htarget _ _ htc
  subst hq
  cases htc with
  | single he =>
    exact absurd (c1Example_edge _ _ he).1 (by decide)
  | tail hprev he =>
    have h1 := (c1Example_edge _ _ he).1
    have h2 := htarget _ _ hprev
    rw [h2] at h1
    exact absurd h1 (by decide)

/-- Witness for C1: the two-package acyclic example satisfies the
hypothesis and the scheduler emits a correct order for it. -/
theorem c1_topological_sort_witness :
    Acyclic c1ExampleResolved ∧
    (∃ order, topological_sort c1ExampleResolved = .ok order ∧
      (∀ q ∈ c1ExampleResolved.map Prod.fst, order.count q = 1) ∧
      (∀ a b, Edge c1ExampleResolved a b → b ∈ c1ExampleResolved.map Prod.fst →
        Before order b a)) :=
  ⟨c1Example_acyclic, (c1_topological_sort c1ExampleResolved).1 c1Example_acyclic⟩

end PI
